import Mathlib

/-!
Verification of the natural-language location/route extraction pipeline.

The repository is JavaScript.  We shallowly embed the extraction functions in
Lean.  Text is modeled at two levels:

* For the NLP modules (`enhanced-nlp.js`, `nlp.js` and the regex-only variant,
  all found in `src/unnamed/part_000`), an input text is modeled as its list of
  whitespace-delimited words (`List Str`), standing for the text in which words
  are separated by single spaces.  All substring tests (`includes`) are exact
  under this model because the needles contain no whitespace; word-boundary
  regex tests (`\bw\b`) are implemented by a faithful character-level scan
  inside each word (a boundary occurs at the edges of a word, at the join
  spaces, and at embedded non-word characters).
* For the `scripts-04.js` / `scripts-03.js` classifier, the input is kept as a
  raw character list (`Str`), because its checks (`' to '`,
  `startsWith('from ')`, trimming) are character-exact.

Strings are `List Char` so that everything evaluates by kernel reduction.
-/

/-- Character list standing for a JavaScript string. -/
abbrev Str := List Char

/-- Character data of a Lean string literal. -/
def strD (s : String) : Str := s.data

/-- The apostrophe character (U+0027), built numerically. -/
def aposC : Char := Char.ofNat 39

/-- Whitespace test, the `\s` class restricted to the common characters. -/
def isSpC (c : Char) : Bool := c = ' ' || c = '\t' || c = '\n' || c = '\r'

/-- ASCII upper-case letter test. -/
def isUpperC (c : Char) : Bool := 'A' ≤ c && c ≤ 'Z'

/-- ASCII lower-case letter test. -/
def isLowerC (c : Char) : Bool := 'a' ≤ c && c ≤ 'z'

/-- ASCII letter test, the `[A-Za-z]` class. -/
def isAlphaC (c : Char) : Bool := isUpperC c || isLowerC c

/-- ASCII digit test, the `[0-9]` class. -/
def isDigitC (c : Char) : Bool := '0' ≤ c && c ≤ '9'

/-- JavaScript regex word-character test, the `\w` class. -/
def isWordC (c : Char) : Bool := isAlphaC c || isDigitC c || c = '_'

/-- ASCII lower-casing of one character (`String.prototype.toLowerCase`). -/
def lcC (c : Char) : Char := if isUpperC c then Char.ofNat (c.toNat + 32) else c

/-- ASCII upper-casing of one character (used by `.toUpperCase()` call sites). -/
def ucC (c : Char) : Char := if isLowerC c then Char.ofNat (c.toNat - 32) else c

/-- ASCII lower-casing of a string, `text.toLowerCase()`. -/
def lows (s : Str) : Str := s.map lcC

/-- Substring test, `hay.includes(needle)`. -/
def containsSub (hay needle : Str) : Bool :=
  match hay with
  | [] => needle.isEmpty
  | _ :: t => needle.isPrefixOf hay || containsSub t needle

/-- Join a word list with single spaces; the inverse of whitespace
tokenization for normalized text. -/
def joinSp : List Str → Str
  | [] => []
  | [w] => w
  | w :: ws => w ++ ' ' :: joinSp ws

/-- `s.trim()`, left part: drop leading whitespace. -/
def trimL (s : Str) : Str := s.dropWhile isSpC

/-- `s.trim()`, right part: drop trailing whitespace. -/
def trimR (s : Str) : Str := (s.reverse.dropWhile isSpC).reverse

/-- `s.trim()`. -/
def trimS (s : Str) : Str := trimL (trimR s)

/-- Sentence-final punctuation, the `[.!?]` class. -/
def isSentPunct (c : Char) : Bool := c = '.' || c = '!' || c = '?'

/-- The `[,.!?;]` class used by single-character trailing-punctuation strips. -/
def isPunct1 (c : Char) : Bool := c = ',' || c = '.' || c = '!' || c = '?' || c = ';'

/-- The `[,.:;]` class used by cluster trailing-punctuation strips. -/
def isPunct2 (c : Char) : Bool := c = ',' || c = '.' || c = ':' || c = ';'

/-- `s.replace(/P+$/, '')`: strip a trailing run of characters in class `p`. -/
def stripTrailRun (p : Char → Bool) (s : Str) : Str := (s.reverse.dropWhile p).reverse

/-- `s.replace(/P$/, '')`: strip one trailing character in class `p`. -/
def stripTrailOne (p : Char → Bool) (s : Str) : Str :=
  match s.reverse with
  | [] => []
  | c :: rest => if p c then rest.reverse else s

/-- Test that word `w` occurs at the head of `t` and is followed by a word
boundary (end of string or a non-word character). -/
def boundaryAfter (w t : Str) : Bool :=
  match t.drop w.length with
  | [] => true
  | c :: _ => !isWordC c

/-- Test that `t` begins with word `w` at a following word boundary. -/
def wordAtHead (w t : Str) : Bool := w.isPrefixOf t && boundaryAfter w t

/-- Scan of `\bw\b` inside a single word, tracking whether the previous
character was a word character (a boundary needs a non-word predecessor). -/
def containsWordBGo (w : Str) (prevIsWord : Bool) : Str → Bool
  | [] => false
  | c :: rest =>
    (!prevIsWord && wordAtHead w (c :: rest)) || containsWordBGo w (isWordC c) rest

/-- `\bw\b` occurrence test inside one word (callers lower-case both sides for
case-insensitive regexes).  At the start of a word the preceding character is
the join space, a boundary. -/
def containsWordB (w t : Str) : Bool := containsWordBGo w false t

/-- Count of `\bw\b` match positions inside one word.  For a word `w` made of
word characters, matches cannot overlap, so this equals the JavaScript
non-overlapping match count. -/
def countWordBGo (w : Str) (prevIsWord : Bool) : Str → Nat
  | [] => 0
  | c :: rest =>
    (if !prevIsWord && wordAtHead w (c :: rest) then 1 else 0) +
      countWordBGo w (isWordC c) rest

/-- Count of `\bw\b` matches inside one word. -/
def countWordB (w t : Str) : Nat := countWordBGo w false t

/-- `(text.match(/\bw\b/gi) || []).length`: total count over all words of the
text (the join spaces are non-word characters, so matches never span words). -/
def countWordTokens (w : Str) (toks : List Str) : Nat :=
  (toks.map (fun t => countWordB w (lows t))).sum

/-- `text.toLowerCase().includes(needle)` for a needle without whitespace:
a substring that contains no space lies entirely inside one word. -/
def includesSubLow (w : String) (toks : List Str) : Bool :=
  toks.any (fun t => containsSub (lows t) (strD w))

/-- Case-insensitive equality of a word with a keyword. -/
def isKw (w : String) (t : Str) : Bool := decide (lows t = strD w)

/-- Split a word list at the words satisfying `p`, the token-level image of
`text.split(/\bkw\b/i)` for inputs whose words carry no embedded boundary
occurrences of `kw`. -/
def splitTok (p : Str → Bool) : List Str → List (List Str)
  | [] => [[]]
  | w :: ws =>
    match splitTok p ws with
    | [] => [[]]
    | s :: ss => if p w then [] :: s :: ss else (w :: s) :: ss

/-- Worker for `splitWsTo`: a separator word needs a preceding join space
(some word already accumulated in the current part) and a following join
space (a later word exists), mirroring `split(/\s+kw\s+/i)` on single-space
joined text — in particular the word right after a consumed separator cannot
itself start a separator, its preceding space was consumed. -/
def splitWsToGo (isSep : Str → Bool) (cur : List Str) : List Str → List (List Str)
  | [] => [cur]
  | t :: ts =>
    if isSep t && !cur.isEmpty && !ts.isEmpty then cur :: splitWsToGo isSep [] ts
    else splitWsToGo isSep (cur ++ [t]) ts

/-- Token-level image of `text.split(/\s+kw\s+/i)` on single-space joined
words. -/
def splitWsTo (isSep : Str → Bool) (toks : List Str) : List (List Str) :=
  splitWsToGo isSep [] toks

theorem splitTok_ne_nil (p : Str → Bool) (xs : List Str) : splitTok p xs ≠ [] := by
  induction xs with
  | nil => simp [splitTok]
  | cons w ws ih =>
    simp only [splitTok]
    cases h : splitTok p ws with
    | nil => simp
    | cons s ss =>
      by_cases hp : p w = true
      · simp [hp]
      · simp [hp]

theorem splitTok_of_no_sep (p : Str → Bool) (xs : List Str)
    (h : ∀ w ∈ xs, p w = false) : splitTok p xs = [xs] := by
  induction xs with
  | nil => rfl
  | cons w ws ih =>
    have hw : p w = false := h w (List.mem_cons_self w ws)
    have hws : ∀ x ∈ ws, p x = false := fun x hx => h x (List.mem_cons_of_mem w hx)
    simp [splitTok, ih hws, hw]

theorem splitTok_append_sep (p : Str → Bool) (xs : List Str) (t : Str) (rest : List Str)
    (hxs : ∀ w ∈ xs, p w = false) (ht : p t = true) :
    splitTok p (xs ++ t :: rest) = xs :: splitTok p rest := by
  induction xs with
  | nil =>
    simp only [List.nil_append, splitTok, ht]
    cases hrec : splitTok p rest with
    | nil => exact absurd hrec (splitTok_ne_nil p rest)
    | cons s ss => simp
  | cons w ws ih =>
    have hw : p w = false := hxs w (List.mem_cons_self w ws)
    have hws : ∀ x ∈ ws, p x = false := fun x hx => hxs x (List.mem_cons_of_mem w hx)
    simp only [List.cons_append, splitTok, hw, List.append_eq]
    rw [ih hws]
    simp

theorem splitWsToGo_of_no_sep (isSep : Str → Bool) (cur ys : List Str)
    (h : ∀ w ∈ ys, isSep w = false) : splitWsToGo isSep cur ys = [cur ++ ys] := by
  induction ys generalizing cur with
  | nil => simp [splitWsToGo]
  | cons t ts ih =>
    have ht : isSep t = false := h t (List.mem_cons_self t ts)
    have hts : ∀ x ∈ ts, isSep x = false := fun x hx => h x (List.mem_cons_of_mem t hx)
    simp [splitWsToGo, ht, ih (cur ++ [t]) hts]

theorem splitWsToGo_append_sep (isSep : Str → Bool) (cur xs : List Str) (t : Str)
    (ys : List Str) (hxs : ∀ w ∈ xs, isSep w = false) (ht : isSep t = true)
    (hcur : cur ++ xs ≠ []) (hys : ys ≠ []) :
    splitWsToGo isSep cur (xs ++ t :: ys) = (cur ++ xs) :: splitWsToGo isSep [] ys := by
  induction xs generalizing cur with
  | nil =>
    simp only [List.nil_append] at hcur ⊢
    simp only [List.append_nil] at hcur
    simp [splitWsToGo, ht, List.isEmpty_iff, hcur, hys]
  | cons w ws ih =>
    have hw : isSep w = false := hxs w (List.mem_cons_self w ws)
    have hws : ∀ x ∈ ws, isSep x = false := fun x hx => hxs x (List.mem_cons_of_mem w hx)
    have hcur2 : (cur ++ [w]) ++ ws ≠ [] := by simp
    have hrw := ih (cur ++ [w]) hws hcur2
    calc splitWsToGo isSep cur ((w :: ws) ++ t :: ys)
        = splitWsToGo isSep (cur ++ [w]) (ws ++ t :: ys) := by
          simp [splitWsToGo, hw]
      _ = ((cur ++ [w]) ++ ws) :: splitWsToGo isSep [] ys := hrw
      _ = (cur ++ w :: ws) :: splitWsToGo isSep [] ys := by simp

theorem splitWsTo_pair (isSep : Str → Bool) (xs : List Str) (t : Str) (ys : List Str)
    (hxs : ∀ w ∈ xs, isSep w = false) (hys : ∀ w ∈ ys, isSep w = false)
    (ht : isSep t = true) (hx : xs ≠ []) (hy : ys ≠ []) :
    splitWsTo isSep (xs ++ t :: ys) = [xs, ys] := by
  unfold splitWsTo
  rw [splitWsToGo_append_sep isSep [] xs t ys hxs ht (by simpa using hx) hy]
  rw [splitWsToGo_of_no_sep isSep [] ys hys]
  simp

/-- Join a list of segments with a single separator word between consecutive
segments; the shape of a text `S1 kw S2 kw ... kw Sn`. -/
def sepJoin (sep : Str) : List (List Str) → List Str
  | [] => []
  | [s] => s
  | s :: ss => s ++ sep :: sepJoin sep ss

theorem splitTok_sepJoin (p : Str → Bool) (sep : Str) (segs : List (List Str))
    (hsep : p sep = true) (hsegs : ∀ s ∈ segs, ∀ w ∈ s, p w = false)
    (hne : segs ≠ []) : splitTok p (sepJoin sep segs) = segs := by
  induction segs with
  | nil => exact absurd rfl hne
  | cons s ss ih =>
    cases ss with
    | nil =>
      simp only [sepJoin]
      exact splitTok_of_no_sep p s (hsegs s (List.mem_cons_self s []))
    | cons s2 ss2 =>
      have h1 : ∀ w ∈ s, p w = false := hsegs s (List.mem_cons_self s _)
      have h2 : ∀ x ∈ s2 :: ss2, ∀ w ∈ x, p w = false :=
        fun x hx => hsegs x (List.mem_cons_of_mem s hx)
      simp only [sepJoin]
      rw [splitTok_append_sep p s sep (sepJoin sep (s2 :: ss2)) h1 hsep]
      rw [ih h2 (by simp)]

theorem joinSp_ne_nil (ws : List Str) (hne : ws ≠ []) (hw : ∀ w ∈ ws, w ≠ []) :
    joinSp ws ≠ [] := by
  cases ws with
  | nil => exact absurd rfl hne
  | cons w rest =>
    cases rest with
    | nil =>
      simpa [joinSp] using hw w (List.mem_cons_self w [])
    | cons x xs =>
      simp only [joinSp]
      cases w <;> simp

theorem joinSp_all (q : Char → Bool) (ws : List Str) (hq : q ' ' = true)
    (h : ∀ w ∈ ws, w.all q = true) : (joinSp ws).all q = true := by
  induction ws with
  | nil => simp [joinSp]
  | cons w rest ih =>
    cases rest with
    | nil => simpa [joinSp] using h w (List.mem_cons_self w [])
    | cons x xs =>
      have hw : w.all q = true := h w (List.mem_cons_self w _)
      have hrest : ∀ y ∈ x :: xs, y.all q = true :=
        fun y hy => h y (List.mem_cons_of_mem w hy)
      simp only [joinSp, List.all_append, List.all_cons]
      rw [hw, hq, ih hrest]
      rfl

theorem all_reverse_head (q : Char → Bool) (s : Str) (c : Char)
    (hall : s.all q = true) (hc : s.reverse.head? = some c) : q c = true := by
  have hmem : c ∈ s.reverse := by
    cases hrev : s.reverse with
    | nil => rw [hrev] at hc; simp at hc
    | cons d rest =>
      rw [hrev] at hc
      simp only [List.head?_cons, Option.some.injEq] at hc
      subst hc
      exact List.mem_cons_self d rest
  exact (List.all_eq_true.mp hall) c (List.mem_reverse.mp hmem)

theorem stripTrailOne_eq_self (p : Char → Bool) (s : Str)
    (h : ∀ c, s.reverse.head? = some c → p c = false) : stripTrailOne p s = s := by
  unfold stripTrailOne
  cases hs : s.reverse with
  | nil =>
    have : s = [] := by simpa using congrArg List.reverse hs
    simp [this]
  | cons c rest =>
    have hc : p c = false := h c (by rw [hs]; rfl)
    simp [hc]

theorem alphaSp_not_punct1 (c : Char) (h : (isAlphaC c || c = ' ') = true) :
    isPunct1 c = false := by
  cases hp : isPunct1 c
  · rfl
  · exfalso
    simp only [isPunct1, Bool.or_eq_true, decide_eq_true_eq] at hp
    rcases hp with (((h1 | h1) | h1) | h1) | h1 <;> subst h1 <;>
      exact absurd h (by decide)

theorem le_countWordTokens_to (toks : List Str) :
    toks.countP (fun t => decide (lows t = strD "to")) ≤
      countWordTokens (strD "to") toks := by
  induction toks with
  | nil => simp [countWordTokens]
  | cons t ts ih =>
    simp only [countWordTokens, List.map_cons, List.sum_cons, List.countP_cons]
    simp only [countWordTokens] at ih
    by_cases h : lows t = strD "to"
    · have h1 : countWordB (strD "to") (lows t) = 1 := by rw [h]; decide
      have h2 : (if decide (lows t = strD "to") = true then 1 else 0) = 1 := by
        simp [h]
      rw [h1, h2]
      omega
    · have h2 : (if decide (lows t = strD "to") = true then 1 else 0) = 0 := by
        simp [h]
      rw [h2]
      omega

/-- Decimal digits of a number (used for interpolated counts in messages). -/
def natStr (n : Nat) : Str := Nat.toDigits 10 n

/-- Join a word list with an arbitrary separator string. -/
def joinWith (sep : Str) : List Str → Str
  | [] => []
  | [w] => w
  | w :: ws => w ++ sep ++ joinWith sep ws

/-- Test that word `w` occurs as a suffix of `t` behind a word boundary
(`...\bw` at the end of a word); checked on the reversed strings. -/
def wordEndB (w t : Str) : Bool := wordAtHead w.reverse t.reverse

/-- Any adjacent pair of words satisfying `p`. -/
def adjacentAny (p : Str → Str → Bool) : List Str → Bool
  | a :: b :: rest => p a b || adjacentAny p (b :: rest)
  | _ => false

/-- Two-word phrase at word boundaries, `\b(w1 w2)\b`: some word ends with
`w1`, the next starts with `w2`, the literal space being the join space. -/
def phraseB (w1 w2 : String) (toks : List Str) : Bool :=
  adjacentAny (fun a b => wordEndB (strD w1) (lows a) && wordAtHead (strD w2) (lows b)) toks

/-- `\bw\b` occurring anywhere in the text (case-insensitive). -/
def hasWordB (w : String) (toks : List Str) : Bool :=
  toks.any (fun t => containsWordB (strD w) (lows t))

namespace EnhancedNlp

/-- A location entry `{name, timeContext}` of the enhanced module. -/
structure Location where
  name : Str
  timeContext : Str
deriving DecidableEq

/-- The result shape of `processNaturalLanguageInput`.  `travelMode` is an
`Option` because the language-model passthrough can leave the field absent
(`none`); all other absent fields are modeled by their falsy defaults. -/
structure ExtractionResult where
  isRouteRequest : Bool
  locations : List Location
  travelMode : Option Str
  preferences : List Str
  message : Str
  suggestedSequence : List Str
deriving DecidableEq

/-- One entry of the parsed language-model `locations` array: a bare JSON
string, or an object whose `name` may be absent. -/
inductive LmLoc
  | strName (s : Str)
  | objName (name : Option Str) (timeContext : Str)
deriving DecidableEq

/-- The JSON object parsed out of a Gemini response (lines 357-363).  Absent
`travelMode` is `none`; absent lists are the empty list; a missing or
non-array `locations` is `none` and throws into the catch block. -/
structure GeminiResp where
  isRouteRequest : Bool
  locations : Option (List LmLoc)
  travelMode : Option Str
  preferences : List Str
  message : Str
  suggestedSequence : List Str
deriving DecidableEq

/-- Line 23: `(inputText.match(/\bto\b/gi) || []).length >= 2`. -/
def hasMultipleToKeywords (toks : List Str) : Bool :=
  decide (2 ≤ countWordTokens (strD "to") toks)

/-- Line 26: the guard of the multi-waypoint block. -/
def multiCond (toks : List Str) : Bool :=
  hasMultipleToKeywords toks &&
    (includesSubLow "from" toks || includesSubLow "route" toks)

/-- The travel-mode checks of lines 58-60 (`\b(walk|walking|on foot)\b` then
`\b(cycl|bike|biking|bicycle)\b`, else driving). -/
def walkCyclMode (toks : List Str) : Str :=
  if hasWordB "walk" toks || hasWordB "walking" toks || phraseB "on" "foot" toks then
    strD "walking"
  else if hasWordB "cycl" toks || hasWordB "bike" toks || hasWordB "biking" toks ||
      hasWordB "bicycle" toks then
    strD "cycling"
  else strD "driving"

/-- Truthiness of `inputText.split(/\bkw\b/i)[1]`: the text after the first
`kw` word is non-empty exactly when that word is not the final word (a
following join space or further `kw` separator keeps the slice non-empty). -/
def kwFollowed (w : String) : List Str → Bool
  | [] => false
  | t :: ts => if isKw w t then !ts.isEmpty else kwFollowed w ts

/-- Lines 38-52 (and 83-97, 100-116): build `waypoints` from `toParts`.  The
first part is pushed trimmed — its raw slice always starts with the join
space after the split keyword, hence is truthy — and each later part is
trimmed, stripped of one trailing `[,.!?;]` character, trimmed again, and
kept when non-empty. -/
def buildWaypoints (tps : List (List Str)) : List Str :=
  match tps with
  | [] => []
  | t0 :: rest =>
    joinSp t0 ::
      (rest.map (fun seg => trimS (stripTrailOne isPunct1 (joinSp seg)))).filter
        (fun w => !w.isEmpty)

/-- Lines 30-71: the `from` sub-branch of the multi-waypoint block.
`split(/\bfrom\b/i)[1]` is the slice between the first and second `from`
words. -/
def fromSubWaypoints (toks : List Str) : Option (List Str) :=
  match splitTok (isKw "from") toks with
  | _ :: afterFrom :: _ =>
    if kwFollowed "from" toks then
      some (buildWaypoints (splitTok (isKw "to") afterFrom))
    else none
  | _ => none

/-- Lines 72-137: the `route` sub-branch.  It runs only when the input has no
`from` substring (line 30 takes the other branch otherwise), so the inner
`afterRoute.includes('from')` test of line 79 is always false here and the
reachable path is the direct split of lines 98-117. -/
def routeSubWaypoints (toks : List Str) : Option (List Str) :=
  match splitTok (isKw "route") toks with
  | _ :: afterRoute :: _ =>
    if kwFollowed "route" toks then
      some (buildWaypoints (splitTok (isKw "to") afterRoute))
    else none
  | _ => none

/-- `part.match(/kw\s+(.*)/i)`: the words after the first word that ends in
the substring `kw` directly before whitespace; `none` when no such word
exists short of the final position. -/
def matchAfterKwSub (w : String) : List Str → Option (List Str)
  | [] => none
  | t :: ts =>
    if (strD w).isSuffixOf (lows t) && !ts.isEmpty then some ts
    else matchAfterKwSub w ts

/-- `firstPart.match(/route(?:\s+from)?\s+(.*)/i)` (line 152): after the
first word ending in `route`, optionally also consuming one following
`from` word when more text follows it. -/
def matchAfterRoute : List Str → Option (List Str)
  | [] => none
  | t :: ts =>
    if (strD "route").isSuffixOf (lows t) && !ts.isEmpty then
      match ts with
      | u :: us => if isKw "from" u && !us.isEmpty then some us else some ts
      | [] => none
    else matchAfterRoute ts

/-- `part.replace(/^(kw1|kw2|...)\s+/i, '')`: drop a leading keyword word
when another word follows it. -/
def stripLeadKw (ws : List String) (toks : List Str) : List Str :=
  match toks with
  | t :: u :: rest => if ws.any (fun w => isKw w t) then u :: rest else toks
  | _ => toks

/-- Lines 144-168: contribution of the first part of the direct split. -/
def directFirstPart (fp : List Str) : List Str :=
  if includesSubLow "from" fp then
    match matchAfterKwSub "from" fp with
    | some rest => if !(joinSp rest).isEmpty then [joinSp rest] else []
    | none => []
  else if includesSubLow "route" fp then
    match matchAfterRoute fp with
    | some rest => if !(joinSp rest).isEmpty then [joinSp rest] else []
    | none =>
      let fp2 := stripLeadKw ["route"] fp
      if !(joinSp fp2).isEmpty then [joinSp fp2] else []
  else
    let cf := stripLeadKw ["path", "walking", "driving", "cycling", "direction", "directions"] fp
    if !(joinSp cf).isEmpty then [joinSp cf] else []

/-- Lines 139-195: the direct `split(/\s+to\s+/i)` fallback of the
multi-waypoint block (later parts trimmed and stripped of one trailing
punctuation character, line 172). -/
def directSplitWaypoints (toks : List Str) : List Str :=
  match splitWsTo (isKw "to") toks with
  | [] => []
  | p0 :: rest =>
    directFirstPart p0 ++
      (rest.map (fun seg => stripTrailOne isPunct1 (joinSp seg))).filter
        (fun w => !w.isEmpty)

/-- The result record shared by the three multi-waypoint branches
(lines 62-69, 127-134, 186-193). -/
def mkMultiResult (toks : List Str) (wps : List Str) : ExtractionResult :=
  let mode := walkCyclMode toks
  { isRouteRequest := true
    locations := wps.map (fun w => { name := w, timeContext := [] })
    travelMode := some mode
    preferences := []
    message := strD "Creating a " ++ mode ++ strD " route with multiple stops: " ++
      joinWith (strD " → ") wps
    suggestedSequence := wps }

/-- Lines 26-195: the whole multi-waypoint block; `none` falls through to the
later stages. -/
def multiStage (toks : List Str) : Option ExtractionResult :=
  let viaKw : Option (List Str) :=
    if includesSubLow "from" toks then fromSubWaypoints toks
    else if includesSubLow "route" toks then routeSubWaypoints toks
    else none
  match viaKw with
  | some wps =>
    if 2 ≤ wps.length then some (mkMultiResult toks wps)
    else
      let dw := directSplitWaypoints toks
      if 2 ≤ dw.length then some (mkMultiResult toks dw) else none
  | none =>
    let dw := directSplitWaypoints toks
    if 2 ≤ dw.length then some (mkMultiResult toks dw) else none

end EnhancedNlp

namespace EnhancedNlp

/-- The lazy `(.*?)\s+to\s+` step: accumulate words until the first `to` word
that still has following text (the regex needs whitespace after `to`; a final
`to` makes the engine look for a later one). -/
def upToFirstToWithTail (acc : List Str) : List Str → Option (List Str × List Str)
  | [] => none
  | t :: ts =>
    if isKw "to" t && !ts.isEmpty then some (acc, ts)
    else upToFirstToWithTail (acc ++ [t]) ts

/-- The lazy `(.*?)(?:\s|$|\.|,)` destination capture: the first word after
`to`, cut at its first `.` or `,` character (the join space or the string end
terminates it otherwise). -/
def lazyTail (w : Str) : Str := w.takeWhile (fun c => !(c = '.' || c = ','))

/-- Lines 17-18 and 197-218: the simple `from X to Y` shortcut pattern
`(?:from\s+|route\s+from\s+|directions?\s+from\s+)(.*?)\s+to\s+(.*?)(?:\s|$|\.|,)`.
All alternation heads start their capture right after a `from`-and-space, so
the match is: the words after the first word ending in `from` short of the
final position, up to the first viable `to`, then the lazy first-word
destination.  Falsy captures make the caller skip the branch (line 197). -/
def simpleRouteMatch (toks : List Str) : Option (Str × Str) :=
  (matchAfterKwSub "from" toks).bind fun rest =>
  (upToFirstToWithTail [] rest).bind fun g =>
  match g.2 with
  | [] => none
  | w :: _ =>
    let f := joinSp g.1
    let t := lazyTail w
    if !f.isEmpty && !t.isEmpty then some (f, t) else none

/-- Lines 207-217: result record of the simple route branch. -/
def mkSimpleResult (toks : List Str) (f t : Str) : ExtractionResult :=
  let mode := walkCyclMode toks
  { isRouteRequest := true
    locations := [{ name := f, timeContext := [] }, { name := t, timeContext := [] }]
    travelMode := some mode
    preferences := []
    message := strD "Creating a " ++ mode ++ strD " route from " ++ f ++ strD " to " ++ t
    suggestedSequence := [f, t] }

/-- The `\b(walk|walking)\b` head of the walking-route pattern: words after
the first word containing a bounded `walk`/`walking`. -/
def afterFirstWalkWord : List Str → Option (List Str)
  | [] => none
  | t :: ts =>
    if containsWordB (strD "walk") (lows t) || containsWordB (strD "walking") (lows t)
    then some ts else afterFirstWalkWord ts

/-- The `\b(from|in)\s+` step: words after the first word ending in a bounded
`from` or `in` short of the final position. -/
def afterFromInWord : List Str → Option (List Str)
  | [] => none
  | t :: ts =>
    if (wordEndB (strD "from") (lows t) || wordEndB (strD "in") (lows t)) && !ts.isEmpty
    then some ts else afterFromInWord ts

/-- Lines 221-240: the walking-route pattern
`\b(walk|walking)\b.*?\b(from|in)\s+(.*?)\s+to\s+(.*?)(?:\s|$|\.|,)`. -/
def walkingRouteMatch (toks : List Str) : Option (Str × Str) :=
  (afterFirstWalkWord toks).bind fun rest1 =>
  (afterFromInWord rest1).bind fun rest2 =>
  (upToFirstToWithTail [] rest2).bind fun g =>
  match g.2 with
  | [] => none
  | w :: _ =>
    let f := joinSp g.1
    let t := lazyTail w
    if !f.isEmpty && !t.isEmpty then some (f, t) else none

/-- Lines 229-239: result record of the walking-route branch. -/
def mkWalkingResult (f t : Str) : ExtractionResult :=
  { isRouteRequest := true
    locations := [{ name := f, timeContext := [] }, { name := t, timeContext := [] }]
    travelMode := some (strD "walking")
    preferences := []
    message := strD "Creating a walking route from " ++ f ++ strD " to " ++ t
    suggestedSequence := [f, t] }

/-- Substring test over the joined text (for needles that may span words). -/
def includesJoined (needle : Str) (toks : List Str) : Bool :=
  containsSub (joinSp toks) needle

/-- Substring test over the lower-cased joined text. -/
def includesJoinedLow (needle : Str) (toks : List Str) : Bool :=
  containsSub (lows (joinSp toks)) needle

/-- The literal `"Gibbon's canvas"` needle, apostrophe spelled numerically. -/
def gibbonNeedle : Str := strD "Gibbon" ++ [aposC] ++ strD "s canvas"

/-- Lines 243-245: the hard-coded Gibbon-example detection. -/
def isGibbonExample (toks : List Str) : Bool :=
  includesJoined gibbonNeedle toks && includesJoined (strD "Mediterranean") toks &&
    includesJoined (strD "Constantinople in 1453") toks

/-- Lines 250-262 (and the identical record of lines 425-437): the predefined
Gibbon-example extraction. -/
def gibbonResult : ExtractionResult :=
  { isRouteRequest := false
    locations := [
      { name := strD "Mediterranean", timeContext := [] },
      { name := strD "sub-Saharan Africa", timeContext := [] },
      { name := strD "China", timeContext := [] },
      { name := strD "Constantinople", timeContext := strD "1453" }]
    travelMode := some (strD "driving")
    preferences := []
    message := strD "I found several geographical locations mentioned in this historical text. Would you like to see them visualized on a map?"
    suggestedSequence := [strD "Mediterranean", strD "sub-Saharan Africa",
      strD "China", strD "Constantinople"] }

/-- Lines 420-423: the Gibbon fallback check inside the catch block. -/
def gibbonFallbackCond (toks : List Str) : Bool :=
  includesJoined (strD "Mediterranean") toks &&
    includesJoined (strD "sub-Saharan Africa") toks &&
    includesJoined (strD "China") toks &&
    includesJoined (strD "Constantinople") toks

/-- Lines 13-14: the routing-keyword heuristic
`/route|path|way|directions|from|to|travel|trip|journey|drive|walk|map|between/i`. -/
def isLikelyRouteRequest (toks : List Str) : Bool :=
  ["route", "path", "way", "directions", "from", "to", "travel", "trip",
    "journey", "drive", "walk", "map", "between"].any
    (fun w => includesSubLow w toks)

/-- Lines 463 and 475: `/\b(walking|cycling|driving|transit)\b/i`, the matched
alternative lower-cased, defaulting to driving. -/
def wcdtMode : List Str → Str
  | [] => strD "driving"
  | t :: ts =>
    if containsWordB (strD "walking") (lows t) then strD "walking"
    else if containsWordB (strD "cycling") (lows t) then strD "cycling"
    else if containsWordB (strD "driving") (lows t) then strD "driving"
    else if containsWordB (strD "transit") (lows t) then strD "transit"
    else wcdtMode ts

/-- The cleanup `.map(wp => wp.trim().replace(/[,.:;]+$/, '').trim())
.filter(wp => wp.length > 0)` applied to matched segments. -/
def cleanClusterWps (segs : List (List Str)) : List Str :=
  (segs.map (fun seg => trimS (stripTrailRun isPunct2 (joinSp seg)))).filter
    (fun w => !w.isEmpty)

/-- The five-group pattern
`from\s+(.*?)\s+to\s+(.*?)(?:\s+to\s+(.*?))?(?:\s+to\s+(.*?))?(?:\s+to\s+(.*?))?(?:$|\.)`
(lines 447 and 606).  The lazy groups, optional groups and terminator are
modeled as: the text after the first viable `from`, split at its `to`
separators, truncated to the at most five capture groups. -/
def fromFiveGroups (toks : List Str) : Option (List (List Str)) :=
  (matchAfterKwSub "from" toks).bind fun rest =>
  (upToFirstToWithTail [] rest).bind fun g =>
  some ((g.1 :: splitWsTo (isKw "to") g.2).take 5)

/-- Lines 446-469: the catch-block multi-waypoint fallback; `none` when the
pattern fails or fewer than two cleaned waypoints remain. -/
def multiWaypointCatch (toks : List Str) : Option (List Str) :=
  match fromFiveGroups toks with
  | none => none
  | some segs =>
    let wps := cleanClusterWps segs
    if 2 ≤ wps.length then some wps else none

/-- Lines 460-467: result record of the catch-block multi-waypoint branch. -/
def mkCatchMultiResult (toks : List Str) (wps : List Str) : ExtractionResult :=
  { isRouteRequest := true
    locations := wps.map (fun w => { name := w, timeContext := [] })
    travelMode := some (wcdtMode toks)
    preferences := []
    message := strD "Creating a route with multiple stops: " ++ joinWith (strD " → ") wps
    suggestedSequence := wps }

end EnhancedNlp

namespace EnhancedNlp

/-- A word of shape `[A-Z][a-zA-Z]+`: leading capital, at least one more
letter, all alphabetic (words are assumed not to embed punctuation for the
capitalized-name scan). -/
def isCapWordTok (t : Str) : Bool :=
  match t with
  | [] => false
  | c :: rest => isUpperC c && !rest.isEmpty && rest.all isAlphaC

/-- Maximal runs of capitalized words, the global matches of
`\b([A-Z][a-zA-Z]+(?:\s+[A-Z][a-zA-Z]+)*)\b` (lines 517-520 and 682-684);
`cur` holds the current run reversed. -/
def capRunsGo (cur : List Str) : List Str → List Str
  | [] => if cur.isEmpty then [] else [joinSp cur.reverse]
  | t :: ts =>
    if isCapWordTok t then capRunsGo (t :: cur) ts
    else (if cur.isEmpty then [] else [joinSp cur.reverse]) ++ capRunsGo [] ts

/-- All capitalized-run matches of a word list. -/
def capRuns (toks : List Str) : List Str := capRunsGo [] toks

/-- The separator keywords of the complex route patterns (lines 596-601). -/
def isCplxKw (t : Str) : Bool :=
  isKw "to" t || isKw "toward" t || isKw "towards" t || isKw "and" t || isKw "then" t

/-- A non-empty purely alphabetic word (the `[A-Za-z][A-Za-z\s]+?` captures). -/
def isAlphaTok (t : Str) : Bool := !t.isEmpty && t.all isAlphaC

/-- Lines 596-601 and 629-643: the look-behind route patterns, modeled as
collecting the maximal alphabetic word runs that follow a
`from`/`in`/`to`/`toward`/`towards`/`and`/`then` keyword, each run ending at
the next keyword or non-alphabetic word. -/
def complexRunsGo (collecting : Bool) (cur : List Str) : List Str → List Str
  | [] => if collecting && !cur.isEmpty then [joinSp cur.reverse] else []
  | t :: ts =>
    if isKw "from" t || isKw "in" t || isCplxKw t then
      (if collecting && !cur.isEmpty then [joinSp cur.reverse] else []) ++
        complexRunsGo true [] ts
    else if collecting && isAlphaTok t then
      complexRunsGo collecting (t :: cur) ts
    else
      (if collecting && !cur.isEmpty then [joinSp cur.reverse] else []) ++
        complexRunsGo false [] ts

/-- All captures of the complex route patterns. -/
def complexRuns (toks : List Str) : List Str := complexRunsGo false [] toks

/-- `[...new Set(list)]`: de-duplication preserving first-seen order. -/
def dedupStrGo (seen : List Str) : List Str → List Str
  | [] => []
  | s :: rest =>
    if seen.contains s then dedupStrGo seen rest
    else s :: dedupStrGo (s :: seen) rest

/-- De-duplication of a string list preserving first-seen order. -/
def dedupStr (l : List Str) : List Str := dedupStrGo [] l

/-- Lines 611-626: the two simple route patterns tried in order; the
anchored second pattern `^(.*?)\s+to\s+...` needs a non-empty group before
its first separator (the separator needs preceding whitespace). -/
def upToFirstToWithTailNE (acc : List Str) : List Str → Option (List Str × List Str)
  | [] => none
  | t :: ts =>
    if isKw "to" t && !ts.isEmpty && !acc.isEmpty then some (acc, ts)
    else upToFirstToWithTailNE (acc ++ [t]) ts

/-- The anchored four-group pattern
`^(.*?)\s+to\s+(.*?)(?:\s+to\s+(.*?))?(?:\s+to\s+(.*?))?(?:$|\.)` (line 608). -/
def anchoredFourGroups (toks : List Str) : Option (List (List Str)) :=
  (upToFirstToWithTailNE [] toks).bind fun g =>
  some ((g.1 :: splitWsTo (isKw "to") g.2).take 4)

/-- Lines 611-626: the simple-pattern stage of `extractLocationsBasic`. -/
def basicSimpleStage (toks : List Str) : Option (List Str) :=
  let try2 : Option (List Str) :=
    match anchoredFourGroups toks with
    | some segs =>
      let wps := cleanClusterWps segs
      if 2 ≤ wps.length then some wps else none
    | none => none
  match fromFiveGroups toks with
  | some segs =>
    let wps := cleanClusterWps segs
    if 2 ≤ wps.length then some wps else try2
  | none => try2

/-- The string-level form of the waypoint cleanup
`.map(wp => wp.trim().replace(/[,.:;]+$/, '').trim()).filter(wp => wp.length > 0)`. -/
def cleanClusterStr (ws : List Str) : List Str :=
  (ws.map (fun w => trimS (stripTrailRun isPunct2 w))).filter (fun w => !w.isEmpty)

/-- Lines 628-650: the complex-pattern stage, returning the de-duplicated
captures when at least two were found. -/
def basicComplexStage (toks : List Str) : Option (List Str) :=
  let ms := cleanClusterStr (complexRuns toks)
  if 2 ≤ ms.length then some (dedupStr ms) else none

/-- The `[,.?!:;]+$` class of the manual-split stage (line 664). -/
def isPunctManual (c : Char) : Bool := isPunct1 c || c = ':'

/-- Lines 662-671: a later part of the manual split — trailing punctuation
cluster stripped, then cut at the first interior `and`/`then` conjunction. -/
def basicManualTail (seg : List Str) : Str :=
  match splitWsTo (fun t => isKw "and" t || isKw "then" t) seg with
  | s :: _ :: _ => trimS (joinSp s)
  | _ => trimS (stripTrailRun isPunctManual (joinSp seg))

/-- Lines 652-678: the manual `from`/`to` split stage. -/
def basicManualStage (toks : List Str) : Option (List Str) :=
  if includesSubLow "from" toks && includesSubLow "to" toks then
    match splitWsTo (isKw "to") toks with
    | p0 :: p1 :: rest =>
      let firstLoc :=
        match matchAfterKwSub "from" p0 with
        | some r => joinSp r
        | none => joinSp p0
      some (firstLoc :: (p1 :: rest).map basicManualTail)
    | _ => none
  else none

/-- Lines 687-693: capitalized words that are not place names. -/
def nonLocationWordsBasic : List Str :=
  [strD "I", strD "You", strD "He", strD "She", strD "They", strD "We", strD "It",
   strD "Who", strD "What", strD "Where", strD "When", strD "Why", strD "How",
   strD "January", strD "February", strD "March", strD "April", strD "May",
   strD "June", strD "July", strD "August", strD "September", strD "October",
   strD "November", strD "December",
   strD "Monday", strD "Tuesday", strD "Wednesday", strD "Thursday",
   strD "Friday", strD "Saturday", strD "Sunday",
   strD "The", strD "A", strD "An", strD "And", strD "Or", strD "But",
   strD "If", strD "Then", strD "So", strD "Because", strD "Route", strD "Path",
   strD "Map", strD "Directions", strD "Show", strD "Get", strD "Find",
   strD "Create", strD "Make", strD "Give"]

/-- Lines 700-722: the common-location name table with its lower-case check
terms. -/
def commonLocationsBasic : List (Str × List Str) :=
  [ (strD "New York", [strD "new york", strD "nyc"]),
    (strD "Los Angeles", [strD "los angeles", strD "la"]),
    (strD "San Francisco", [strD "san francisco", strD "sf"]),
    (strD "Chicago", [strD "chicago"]),
    (strD "Boston", [strD "boston"]),
    (strD "Washington DC", [strD "washington dc", strD "washington d.c.", strD "dc"]),
    (strD "Seattle", [strD "seattle"]),
    (strD "Miami", [strD "miami"]),
    (strD "London", [strD "london"]),
    (strD "Paris", [strD "paris"]),
    (strD "Tokyo", [strD "tokyo"]),
    (strD "Beijing", [strD "beijing", strD "peking"]),
    (strD "Sydney", [strD "sydney"]),
    (strD "Mediterranean", [strD "mediterranean"]),
    (strD "China", [strD "china"]),
    (strD "Africa", [strD "africa"]),
    (strD "Constantinople", [strD "constantinople", strD "istanbul"]),
    (strD "Europe", [strD "europe"]),
    (strD "Asia", [strD "asia"]),
    (strD "America", [strD "america"]),
    (strD "Australia", [strD "australia"]) ]

/-- Lines 724-729: append table names whose check terms occur in the
lower-cased text, skipping names already present. -/
def addCommonLocations (toks : List Str) (locs : List Str) : List Str :=
  commonLocationsBasic.foldl
    (fun acc entry =>
      if entry.2.any (fun term => includesJoinedLow term toks) && !acc.contains entry.1
      then acc ++ [entry.1] else acc) locs

/-- `potentialLoc.replace(/\b\w/g, c => c.toUpperCase())`: capitalize the
first word character after each boundary. -/
def titleCaseChars (prevIsWord : Bool) : Str → Str
  | [] => []
  | c :: rest =>
    (if !prevIsWord && isWordC c then ucC c else c) :: titleCaseChars (isWordC c) rest

/-- Title-casing of a string. -/
def titleCasePhrase (s : Str) : Str := titleCaseChars false s

/-- The keyword class of the route-token split `\b(from|to|and|then|towards?)\b`
(line 734). -/
def isRouteTokKw (t : Str) : Bool :=
  isKw "from" t || isKw "to" t || isKw "and" t || isKw "then" t ||
    isKw "toward" t || isKw "towards" t

/-- Lines 732-749: walk the lower-cased split pieces; after each
`from`/`to`/`toward`/`towards` keyword, title-case the following piece and
append it when longer than one character and not already present. -/
def routeTokenScan (locs : List Str) : List Str → List Str
  | [] => locs
  | t :: ts =>
    if isKw "from" t || isKw "to" t || isKw "toward" t || isKw "towards" t then
      let seg := ts.takeWhile (fun u => !isRouteTokKw u)
      let cand := joinSp (seg.map lows)
      let locs2 :=
        if 1 < cand.length && !seg.isEmpty then
          let formatted := joinSp (seg.map (fun u => titleCasePhrase (lows u)))
          if locs.contains formatted then locs else locs ++ [formatted]
        else locs
      routeTokenScan locs2 ts
    else routeTokenScan locs ts

/-- Lines 592-751: `extractLocationsBasic`. -/
def extractLocationsBasic (toks : List Str) : List Str :=
  match basicSimpleStage toks with
  | some wps => wps
  | none =>
    match basicComplexStage toks with
    | some wps => wps
    | none =>
      match basicManualStage toks with
      | some wps => wps
      | none =>
        let locs := (capRuns toks).filter (fun l => !nonLocationWordsBasic.contains l)
        let locs2 := addCommonLocations toks locs
        if includesSubLow "route" toks || includesJoinedLow (strD " to ") toks ||
            includesSubLow "from" toks
        then routeTokenScan locs2 toks else locs2

end EnhancedNlp

namespace EnhancedNlp

/-- Lines 502-509: capitalized non-location words of the paragraph path. -/
def nonLocationWordsPara : List Str :=
  [strD "I", strD "You", strD "He", strD "She", strD "They", strD "We", strD "It",
   strD "Who", strD "What", strD "Where", strD "When", strD "Why", strD "How",
   strD "January", strD "February", strD "March", strD "April", strD "May",
   strD "June", strD "July", strD "August", strD "September", strD "October",
   strD "November", strD "December",
   strD "Monday", strD "Tuesday", strD "Wednesday", strD "Thursday",
   strD "Friday", strD "Saturday", strD "Sunday",
   strD "The", strD "A", strD "An", strD "And", strD "Or", strD "But",
   strD "If", strD "Then", strD "So", strD "Because", strD "Although", strD "Since",
   strD "One", strD "Two", strD "Three", strD "Four", strD "Five",
   strD "Six", strD "Seven", strD "Eight", strD "Nine", strD "Ten",
   strD "First", strD "Second", strD "Third", strD "Fourth", strD "Fifth"]

/-- Lines 539-542: common lower-case location names of the paragraph path. -/
def commonLocationsPara : List Str :=
  [strD "mediterranean", strD "europe", strD "asia", strD "africa",
   strD "australia", strD "antarctica", strD "america", strD "pacific",
   strD "atlantic", strD "indian ocean", strD "arctic", strD "sahara",
   strD "alps", strD "himalayas"]

/-- Line 492: `text.split(/[.!?]+/)` — a word containing sentence punctuation
ends the current sentence, contributing its leading punctuation-free part
(the model keeps one piece per word). -/
def splitSentGo (cur : List Str) : List Str → List (List Str)
  | [] => [cur]
  | t :: ts =>
    if t.any isSentPunct then
      let pre := t.takeWhile (fun c => !isSentPunct c)
      (cur ++ if pre.isEmpty then [] else [pre]) :: splitSentGo [] ts
    else splitSentGo (cur ++ [t]) ts

/-- Sentences of a text, empty ones filtered (line 492). -/
def splitSentences (toks : List Str) : List (List Str) :=
  (splitSentGo [] toks).filter (fun s => !s.isEmpty)

/-- The keyword head of the time-context pattern (lines 527-528). -/
def isTimeKw (t : Str) : Bool :=
  isKw "in" t || isKw "during" t || isKw "around" t || isKw "about" t ||
    isKw "circa" t || decide (lows t = strD "c.") || isKw "year" t || isKw "century" t

/-- Lines 527-528: the time-context capture
`(?:in|during|around|about|circa|c\.|year|century)\s+(\d{1,4}...)`, modeled as
the digit run (of length at most four) opening the word after the first time
keyword that is so followed; empty when absent. -/
def timeOf : List Str → Str
  | [] => []
  | t :: ts =>
    if isTimeKw t then
      match ts with
      | u :: _ =>
        let d := u.takeWhile isDigitC
        if !d.isEmpty && d.length ≤ 4 then d else timeOf ts
      | [] => []
    else timeOf ts

/-- Lines 515-536: the capitalized-name locations of one sentence, each
carrying the sentence's time context. -/
def paraSentenceLocs (sent : List Str) : List Location :=
  ((capRuns sent).filter (fun l => !nonLocationWordsPara.contains l)).map
    (fun n => { name := n, timeContext := timeOf sent })

/-- Lines 544-563: common lower-case locations of one sentence appended to
the accumulated list when their title-cased form is not already present. -/
def paraCommonAdds (sent : List Str) (acc : List Location) : List Location :=
  commonLocationsPara.foldl
    (fun acc loc =>
      if containsWordB loc (lows (joinSp sent)) then
        let formatted := titleCasePhrase loc
        if acc.any (fun e => e.name == formatted) then acc
        else acc ++ [{ name := formatted, timeContext := timeOf sent }]
      else acc) acc

/-- Lines 566-575: de-duplication by exact name keeping first occurrences. -/
def dedupLoc (seen : List Str) : List Location → List Location
  | [] => []
  | l :: ls =>
    if seen.contains l.name then dedupLoc seen ls
    else l :: dedupLoc (l.name :: seen) ls

/-- Lines 490-585: `extractLocationsFromParagraph`. -/
def extractLocationsFromParagraph (toks : List Str) : ExtractionResult :=
  let sentences := splitSentences toks
  let rawLocs := sentences.foldl (fun acc sent => paraCommonAdds sent (acc ++ paraSentenceLocs sent)) []
  let uniqueLocations := dedupLoc [] rawLocs
  { isRouteRequest := false
    locations := uniqueLocations
    travelMode := some (strD "driving")
    preferences := []
    message := strD "I found " ++ natStr uniqueLocations.length ++
      strD " locations mentioned in this text. Would you like to see them on the map?"
    suggestedSequence := uniqueLocations.map (fun l => l.name) }

/-- Lines 370-378: bare string entries become `{name, timeContext: ""}` and
entries without a non-empty string name are dropped (`loc && loc.name &&
typeof loc.name === 'string'` — the empty string is falsy). -/
def normalizeLmLocs (ls : List LmLoc) : List Location :=
  (ls.map (fun l =>
    match l with
    | .strName s => { name := s, timeContext := ([] : Str) }
    | .objName n tc => { name := n.getD [], timeContext := tc })).filter
    (fun l => !l.name.isEmpty)

/-- Lines 416-482: the catch block of `processNaturalLanguageInput`. -/
def catchStage (toks : List Str) : ExtractionResult :=
  if gibbonFallbackCond toks then gibbonResult
  else if !isLikelyRouteRequest toks then extractLocationsFromParagraph toks
  else
    match multiWaypointCatch toks with
    | some wps => mkCatchMultiResult toks wps
    | none =>
      { isRouteRequest := isLikelyRouteRequest toks
        locations := (extractLocationsBasic toks).map (fun w => { name := w, timeContext := [] })
        travelMode := some (wcdtMode toks)
        preferences := []
        message :=
          if isLikelyRouteRequest toks then
            strD "I had trouble understanding the details, but I" ++ [aposC] ++
              strD "ll try to map what I understood."
          else
            strD "I found some potential locations in your text. Would you like to see them on the map?"
        suggestedSequence := extractLocationsBasic toks }

/-- Lines 327-415: the language-model stage.  The `llm` parameter is the
outcome of the network call and JSON extraction: `Except.error` stands for a
transport error, a bad status, missing candidates, or unparseable JSON (even
after the lenient repair pass), all of which land in the catch block.  A
parsed object without a locations array throws inside the try (lines 366-368
and 393-395) and reaches the catch identically. -/
def lmStage (toks : List Str) (llm : Except Unit GeminiResp) : ExtractionResult :=
  match llm with
  | .error _ => catchStage toks
  | .ok raw =>
    match raw.locations with
    | none => catchStage toks
    | some ls =>
      { isRouteRequest := raw.isRouteRequest
        locations := normalizeLmLocs ls
        travelMode := raw.travelMode
        preferences := raw.preferences
        message := raw.message
        suggestedSequence := raw.suggestedSequence }

/-- Lines 11-483: `processNaturalLanguageInput` of the enhanced module, input
given as its word list together with the language-model outcome. -/
def processNaturalLanguageInput (toks : List Str) (llm : Except Unit GeminiResp) :
    ExtractionResult :=
  match (if multiCond toks then multiStage toks else none) with
  | some r => r
  | none =>
    match simpleRouteMatch toks with
    | some g => mkSimpleResult toks g.1 g.2
    | none =>
      match walkingRouteMatch toks with
      | some g => mkWalkingResult g.1 g.2
      | none =>
        if isGibbonExample toks then gibbonResult
        else lmStage toks llm

end EnhancedNlp

/-- The `{transportMode, avoidTolls, avoidHighways, avoidFerries}` preference
record of the nlp modules. -/
structure Prefs where
  transportMode : Str
  avoidTolls : Bool
  avoidHighways : Bool
  avoidFerries : Bool
deriving DecidableEq

/-- The `{locations, preferences}` result record of the nlp modules. -/
structure LocResult where
  locations : List Str
  preferences : Prefs
deriving DecidableEq

/-- Whitespace tokenization of a raw string (worker). -/
def tokensOfStrGo (cur : Str) : Str → List Str
  | [] => if cur.isEmpty then [] else [cur.reverse]
  | c :: rest =>
    if isSpC c then (if cur.isEmpty then [] else [cur.reverse]) ++ tokensOfStrGo [] rest
    else tokensOfStrGo (c :: cur) rest

/-- Whitespace tokenization of a raw string. -/
def tokensOfStr (s : Str) : List Str := tokensOfStrGo [] s

/-- `query.split(new RegExp(needles.join('|'), 'gi'))` for non-empty
lower-case needles: split at the earliest occurrence of any needle, trying
the alternatives in order.  The drop of `max 1 n.length` characters equals
`n.length` for the non-empty needles used here.  The scan consumes at least
one character per step, so the fuel parameter — the input length at the
wrapper — is never exhausted and the fuel-out branch is unreachable. -/
def splitNeedlesGo (needles : List Str) : Nat → Str → Str → List Str
  | _, acc, [] => [acc.reverse]
  | 0, acc, s => [acc.reverse ++ s]
  | fuel + 1, acc, c :: rest =>
    match needles.find? (fun n => !n.isEmpty && decide (lows ((c :: rest).take n.length) = n)) with
    | some n => acc.reverse :: splitNeedlesGo needles fuel [] ((c :: rest).drop (max 1 n.length))
    | none => splitNeedlesGo needles fuel (c :: acc) rest

/-- Case-insensitive multi-needle split of a string. -/
def splitNeedles (needles : List Str) (s : Str) : List Str :=
  splitNeedlesGo needles s.length [] s

namespace Nlp

/-- A JSON preferences object of a parsed Gemini response; `none` marks an
absent key, which the spread `{...defaults, ...preferences}` leaves at its
default. -/
structure PrefsPartial where
  transportMode : Option Str
  avoidTolls : Option Bool
  avoidHighways : Option Bool
  avoidFerries : Option Bool
deriving DecidableEq

/-- A parsed Gemini payload of the secure module: `locations` is `none` when
the key is absent or not an array (line 1745 then yields `[]`). -/
structure GeminiResp where
  locations : Option (List Str)
  preferences : Option PrefsPartial
deriving DecidableEq

/-- Lines 1743-1770: `validateAndFormatResponse` of nlp.js — absent
preferences default, and `transportMode` is clamped to the four-value enum
with driving as the fallback. -/
def validateAndFormatResponse (r : GeminiResp) : LocResult :=
  let d : Prefs :=
    { transportMode := strD "driving", avoidTolls := false,
      avoidHighways := false, avoidFerries := false }
  let merged : Prefs :=
    match r.preferences with
    | none => d
    | some p =>
      { transportMode := p.transportMode.getD d.transportMode
        avoidTolls := p.avoidTolls.getD d.avoidTolls
        avoidHighways := p.avoidHighways.getD d.avoidHighways
        avoidFerries := p.avoidFerries.getD d.avoidFerries }
  let m := merged.transportMode
  let final :=
    if decide (m = strD "driving") || decide (m = strD "walking") ||
        decide (m = strD "cycling") || decide (m = strD "transit")
    then m else strD "driving"
  { locations := r.locations.getD []
    preferences := { merged with transportMode := final } }

/-- A word ending in one of `by|using|with|via` (the pattern carries no word
boundary, so any suffix occurrence counts). -/
def prepHead (t : Str) : Bool :=
  (strD "by").isSuffixOf (lows t) || (strD "using").isSuffixOf (lows t) ||
    (strD "with").isSuffixOf (lows t) || (strD "via").isSuffixOf (lows t)

/-- The captured transport alternative
`(car|driving|walking|cycling|bike|transit|bus|train)` as a prefix of the
following word, alternatives tried in order. -/
def modeCapture (t : Str) : Option Str :=
  if (strD "car").isPrefixOf (lows t) then some (strD "car")
  else if (strD "driving").isPrefixOf (lows t) then some (strD "driving")
  else if (strD "walking").isPrefixOf (lows t) then some (strD "walking")
  else if (strD "cycling").isPrefixOf (lows t) then some (strD "cycling")
  else if (strD "bike").isPrefixOf (lows t) then some (strD "bike")
  else if (strD "transit").isPrefixOf (lows t) then some (strD "transit")
  else if (strD "bus").isPrefixOf (lows t) then some (strD "bus")
  else if (strD "train").isPrefixOf (lows t) then some (strD "train")
  else none

/-- Line 1789: `query.match(/(?:by|using|with|via)\s+(car|...|train)/i)` —
the captured mode at the earliest matching adjacent word pair. -/
def findTransportMatch : List Str → Option Str
  | a :: b :: rest =>
    if prepHead a then
      match modeCapture b with
      | some m => some m
      | none => findTransportMatch (b :: rest)
    else findTransportMatch (b :: rest)
  | _ => none

/-- Lines 1790-1801: map the captured alternative onto the enum (car →
driving, bike → cycling, bus/train → transit); an unmapped capture leaves
the driving default. -/
def transportOf (toks : List Str) : Str :=
  match findTransportMatch toks with
  | none => strD "driving"
  | some m =>
    if decide (m = strD "car") then strD "driving"
    else if decide (m = strD "bike") then strD "cycling"
    else if decide (m = strD "bus") || decide (m = strD "train") then strD "transit"
    else if decide (m = strD "driving") || decide (m = strD "walking") ||
        decide (m = strD "cycling") || decide (m = strD "transit") then m
    else strD "driving"

/-- `avoid(?:ing)?\s+(?:w...)`: a word ending in `avoid` or `avoiding`
followed by a word starting with one of the unbounded alternatives. -/
def avoidPairSub (alts : List String) (toks : List Str) : Bool :=
  adjacentAny
    (fun a b =>
      ((strD "avoid").isSuffixOf (lows a) || (strD "avoiding").isSuffixOf (lows a)) &&
        alts.any (fun alt => (strD alt).isPrefixOf (lows b)))
    toks

/-- Lines 1817-1824 and 1894-1911: the pattern
`route\s+from\s+([A-Za-z\s]+?)\s+to\s+([A-Za-z\s]+)(?:\s|$)/i`: a word ending
in `route`, the exact word `from`, a non-empty lazy alphabetic run up to the
first `to` word, then a non-empty greedy alphabetic run. -/
def routeFromToMatch : List Str → Option (Str × Str)
  | [] => none
  | t :: ts =>
    let here : Option (Str × Str) :=
      if (strD "route").isSuffixOf (lows t) then
        match ts with
        | u :: us =>
          if isKw "from" u then
            let g1 := us.takeWhile (fun w => EnhancedNlp.isAlphaTok w && !(isKw "to" w))
            match us.drop g1.length with
            | v :: vs =>
              if isKw "to" v && !g1.isEmpty then
                let g2 := vs.takeWhile EnhancedNlp.isAlphaTok
                if !g2.isEmpty then some (joinSp g1, joinSp g2) else none
              else none
            | [] => none
          else none
        | [] => none
      else none
    match here with
    | some r => some r
    | none => routeFromToMatch ts

/-- A word ending in one of the preposition heads of line 1827. -/
def prepTailB (t : Str) : Bool :=
  ["from", "to", "through", "via", "between", "in", "at"].any
    (fun w => (strD w).isSuffixOf (lows t))

/-- A word opening the capture terminator `(?:\s+(?:to|and|through|via|,)|$)`
(unbounded alternatives, so a prefix occurrence counts). -/
def capStopB (t : Str) : Bool :=
  ["to", "and", "through", "via", ","].any (fun w => (strD w).isPrefixOf (lows t))

/-- A word within the capture class `[A-Z][a-zA-Z0-9\s,]+?` (the join spaces
realize `\s`). -/
def prepClassTok (t : Str) : Bool :=
  t.all (fun c => isAlphaC c || isDigitC c || c = ',')

/-- Lines 1827-1833: the global preposition-capture loop.  A capture starts
after a word ending in a preposition, opens with a letter, runs over
class-conforming words, and ends before a terminator word or at the end of
the text; the scan resumes after the consumed terminator. -/
def prepositionScanF : Nat → List Str → List Str
  | _, [] => []
  | 0, _ => []
  | fuel + 1, t :: ts =>
    if prepTailB t &&
        (match lows (ts.headD []) with | c :: _ => isAlphaC c | [] => false) then
      let seg := ts.takeWhile (fun w => prepClassTok w && !capStopB w)
      let rest := ts.drop seg.length
      if seg.isEmpty then prepositionScanF fuel ts
      else if rest.isEmpty then [joinSp seg]
      else if capStopB (rest.headD []) then
        joinSp seg :: prepositionScanF fuel (rest.drop 1)
      else prepositionScanF fuel ts
    else prepositionScanF fuel ts

/-- Lines 1827-1833, wrapper: each scan step consumes at least one word, so
fuel equal to the word count is never exhausted. -/
def prepositionScan (toks : List Str) : List Str := prepositionScanF toks.length toks

/-- Lines 1846-1854: the cleaned-query fallback
`query.replace(/^(?:route|path|directions|way|road|show me|find|get|display)\s+(?:from|to|between)?\s+/i, '')`.
With single join spaces the two `\s+` runs force the optional
`from|to|between` word to be present and non-final; `none` when the pattern
does not match. -/
def stripLeadQuery (toks : List Str) : Option (List Str) :=
  let core : List Str → Option (List Str) := fun ts =>
    match ts with
    | u :: us =>
      if (isKw "from" u || isKw "to" u || isKw "between" u) && !us.isEmpty then some us
      else none
    | [] => none
  match toks with
  | t :: ts =>
    if isKw "show" t then
      match ts with
      | m :: ms => if isKw "me" m then core ms else none
      | [] => none
    else if isKw "route" t || isKw "path" t || isKw "directions" t || isKw "way" t ||
        isKw "road" t || isKw "find" t || isKw "get" t || isKw "display" t then core ts
    else none
  | [] => none

/-- Lines 1777-1861: `extractLocationsWithRegex` of nlp.js. -/
def extractLocationsWithRegex (toks : List Str) : LocResult :=
  let prefs : Prefs :=
    { transportMode := transportOf toks
      avoidTolls := avoidPairSub ["toll"] toks
      avoidHighways := avoidPairSub ["highway", "freeway"] toks
      avoidFerries := avoidPairSub ["ferry", "ferries"] toks }
  match routeFromToMatch toks with
  | some g => { locations := [g.1, g.2], preferences := prefs }
  | none =>
    let locs1 := prepositionScan toks
    let locs2 :=
      if locs1.isEmpty then
        ((splitNeedles [strD " to ", strD ", ", strD " and ", strD " => ", strD ","]
            (joinSp toks)).map trimS).filter
          (fun s => !s.isEmpty && s.any isAlphaC)
      else locs1
    let locs3 :=
      if locs2.isEmpty then
        let cleaned :=
          match stripLeadQuery toks with
          | some rest => joinSp rest
          | none => joinSp toks
        if !cleaned.isEmpty then [cleaned] else []
      else locs2
    { locations := locs3, preferences := prefs }

/-- Lines 1505-1588: `processNaturalLanguage` of nlp.js.  The two parameters
are the outcomes of the function-calling request and of the prompt request
(`Except.error` covers transport errors, bad statuses and unextractable
payloads; a response parsing to a non-object throws inside the same try).
The fast-path guard of line 1510 reads `.length` on the object returned by
`extractLocationsWithRegex`; that property is undefined on the object, so
`regexLocations.length >= 2` is never true and the fast path never returns —
and the identical comparison makes the `error.fallback` branch of lines
1534-1549 inert.  Hence: first request, else second request, else the regex
fallback object. -/
def processNaturalLanguage (toks : List Str) (fc pr : Except Unit GeminiResp) : LocResult :=
  match fc with
  | .ok raw => validateAndFormatResponse raw
  | .error _ =>
    match pr with
    | .ok raw => validateAndFormatResponse raw
    | .error _ => extractLocationsWithRegex toks

end Nlp

namespace NlpRegex

/-- Lines 1888-1890: the avoidance patterns
`\b(no W|avoid W|without W)\b`: a word ending in a bounded `no`, `avoid` or
`without`, the next word starting with `W` at a closing word boundary (so a
plural such as `tolls` does not match `\btoll\b`). -/
def avoidPhraseB (w2 : String) (toks : List Str) : Bool :=
  adjacentAny
    (fun a b =>
      (wordEndB (strD "no") (lows a) || wordEndB (strD "avoid") (lows a) ||
        wordEndB (strD "without") (lows a)) && wordAtHead (strD w2) (lows b))
    toks

/-- A separator test `/\s+kw\s+/i` on single-space joined words: an interior
word (neither first nor last) equal to the keyword. -/
def hasInteriorTok (p : Str → Bool) : List Str → Bool
  | [] => false
  | _ :: rest => rest.dropLast.any p

/-- The leading-preposition strip of line 1951,
`part.replace(/^(from|to|in|at|starting|ending|beginning|route)\s+/i, '')`. -/
def cleanPartC (part : List Str) : List Str :=
  EnhancedNlp.stripLeadKw
    ["from", "to", "in", "at", "starting", "ending", "beginning", "route"] part

/-- Lines 1943-1968: one separator branch — split, clean each part, keep the
non-empty ones, succeed when at least two remain. -/
def trySepSplit (p : Str → Bool) (toks : List Str) : Option (List Str) :=
  if hasInteriorTok p toks then
    let parts := ((splitWsTo p toks).map (fun part => joinSp (cleanPartC part))).filter
      (fun s => !s.isEmpty)
    if 2 ≤ parts.length then some parts else none
  else none

/-- The comma separator `/\s*,\s*/`: a character-level split at commas of the
joined text, each piece re-tokenized (its edge whitespace is consumed by the
later trims). -/
def tryCommaSplit (toks : List Str) : Option (List Str) :=
  if (joinSp toks).any (fun c => c = ',') then
    let pieces := (splitNeedles [strD ","] (joinSp toks)).map tokensOfStr
    let parts := (pieces.map (fun part => joinSp (cleanPartC part))).filter
      (fun s => !s.isEmpty)
    if 2 ≤ parts.length then some parts else none
  else none

/-- Split a maximal alphabetic run at its last interior `and` word — the
backtracking of the greedy first group of the `between` pattern. -/
def lastAndSplit (run : List Str) : Option (List Str × List Str) :=
  match ((List.range run.length).filter
      (fun i => isKw "and" (run.getD i []) && decide (0 < i) &&
        decide (i + 1 < run.length))).getLast? with
  | some i => some (run.take i, run.drop (i + 1))
  | none => none

/-- Lines 1928-1931: `/between\s+([A-Za-z\s]+)\s+and\s+([A-Za-z\s]+)/i` — a
word ending in `between`, then a maximal alphabetic word run split at its
last interior `and` word (both greedy groups non-empty). -/
def betweenMatchC : List Str → Option (Str × Str)
  | [] => none
  | t :: ts =>
    let here : Option (Str × Str) :=
      if (strD "between").isSuffixOf (lows t) then
        match lastAndSplit (ts.takeWhile EnhancedNlp.isAlphaTok) with
        | some g => some (joinSp g.1, joinSp g.2)
        | none => none
      else none
    match here with
    | some r => some r
    | none => betweenMatchC ts

/-- Lines 1924-1970: the separator loop in its fixed order — `to`, `and`,
comma, `through`, `via`, then the special `between` branch. -/
def sepLoopC (toks : List Str) : Option (List Str) :=
  match trySepSplit (isKw "to") toks with
  | some r => some r
  | none =>
    match trySepSplit (isKw "and") toks with
    | some r => some r
    | none =>
      match tryCommaSplit toks with
      | some r => some r
      | none =>
        match trySepSplit (isKw "through") toks with
        | some r => some r
        | none =>
          match trySepSplit (isKw "via") toks with
          | some r => some r
          | none =>
            if hasInteriorTok (isKw "between") toks then
              match betweenMatchC toks with
              | some g => some [g.1, g.2]
              | none => none
            else none

/-- The first leading strip of the single-location cleanup (line 1975),
`^(show|find|get|display|give me|route|path|directions?|map)\s+`; the
`give me` alternative spans two words. -/
def stripShowLead (toks : List Str) : List Str :=
  match toks with
  | t :: u :: rest =>
    if isKw "give" t && isKw "me" u && !rest.isEmpty then rest
    else EnhancedNlp.stripLeadKw
      ["show", "find", "get", "display", "route", "path", "direction",
        "directions", "map"] toks
  | _ => toks

/-- The trailing strip of line 1977, `\s+(route|path|directions?|map)$`. -/
def stripTrailKw (ws : List String) (toks : List Str) : List Str :=
  match toks with
  | [] => []
  | [t] => [t]
  | t :: u :: rest =>
    match (t :: u :: rest).getLast? with
    | some l => if ws.any (fun w => isKw w l) then (t :: u :: rest).dropLast else t :: u :: rest
    | none => t :: u :: rest

/-- Lines 1974-1978: the cleaned single-location text. -/
def singleCleanC (toks : List Str) : List Str :=
  stripTrailKw ["route", "path", "direction", "directions", "map"]
    (EnhancedNlp.stripLeadKw ["from", "to", "in", "at"] (stripShowLead toks))

/-- Lines 1874-2006: `extractLocationsWithRegex`, the normalized regex-only
variant.  The input word list stands for the normalized text of line 1880
(trimmed, whitespace collapsed); the `if (!text) return []` guard of
line 1875 maps to the empty word list (its bare-array return is modeled as a
result with no locations). -/
def extractLocationsWithRegex (toks : List Str) : LocResult :=
  let prefs : Prefs :=
    { transportMode := EnhancedNlp.walkCyclMode toks
      avoidTolls := avoidPhraseB "toll" toks
      avoidHighways := avoidPhraseB "highway" toks
      avoidFerries := avoidPhraseB "ferr" toks }
  if toks.isEmpty then { locations := [], preferences := prefs }
  else
    match Nlp.routeFromToMatch toks with
    | some g => { locations := [g.1, g.2], preferences := prefs }
    | none =>
      match sepLoopC toks with
      | some locs => { locations := locs, preferences := prefs }
      | none =>
        let cleaned := singleCleanC toks
        if !(joinSp cleaned).isEmpty && decide (cleaned ≠ toks) then
          { locations := [joinSp cleaned], preferences := prefs }
        else { locations := [joinSp toks], preferences := prefs }

end NlpRegex

theorem dropWhile_length_le (p : Char → Bool) (l : Str) :
    (l.dropWhile p).length ≤ l.length := by
  induction l with
  | nil => simp
  | cons c rest ih =>
    by_cases h : p c = true
    · simp only [List.dropWhile_cons, h, if_true, List.length_cons]
      omega
    · simp [List.dropWhile_cons, h]

namespace ScriptMain

/-- The three outcomes of `handleProcessedResult` (script.js lines 299-365):
no locations found, route creation with the chosen waypoint names, or the
mention display (chips and markers). -/
inductive HandleAction
  | noLocations
  | route (wps : List Str)
  | mentions
deriving DecidableEq

/-- Lines 299-365: `handleProcessedResult` reduced to its dispatch — no
locations yields a message only; a route request with at least two locations
calls `createRoute` on the suggested sequence (when it has at least two
entries, line 318) or on the location names; everything else shows chips and
markers. -/
def handleAction (r : EnhancedNlp.ExtractionResult) : HandleAction :=
  if r.locations.isEmpty then HandleAction.noLocations
  else
    let locationNames := r.locations.map (fun l => l.name)
    if r.isRouteRequest && decide (2 ≤ locationNames.length) then
      HandleAction.route
        (if 2 ≤ r.suggestedSequence.length then r.suggestedSequence else locationNames)
    else HandleAction.mentions

/-- Lines 252-263: the adapter building an enhanced-shaped result from an
nlp.js regex result on the fallback path of the search handler. -/
def adaptResult (r : LocResult) : EnhancedNlp.ExtractionResult :=
  { isRouteRequest := true
    locations := r.locations.map (fun l => { name := l, timeContext := [] })
    travelMode := some
      (if r.preferences.transportMode.isEmpty then strD "driving"
       else r.preferences.transportMode)
    preferences :=
      (if r.preferences.avoidTolls then [strD "avoid tolls"] else []) ++
        (if r.preferences.avoidHighways then [strD "avoid highways"] else []) ++
        (if r.preferences.avoidFerries then [strD "avoid ferries"] else [])
    message := strD "Creating a route between " ++ joinWith (strD " and ") r.locations
    suggestedSequence := r.locations }

end ScriptMain

namespace Scripts04

/-- Character-level `split(/\s+to\s+/i)` (scripts-04.js line 185,
scripts-03.js line 134): a split happens at a whitespace character directly
followed by `to` and further whitespace; an earlier space of a longer run is
carried into the left piece, where the caller's `trim` removes it —
observationally equal to the greedy regex consumption. -/
def splitWsToWsGoC : Nat → Str → Str → List Str
  | _, acc, [] => [acc.reverse]
  | 0, acc, s => [acc.reverse ++ s]
  | fuel + 1, acc, c :: rest =>
    if isSpC c && decide (lcC (rest.headD ' ') = 't') &&
        decide (lcC ((rest.drop 1).headD ' ') = 'o') &&
        isSpC ((rest.drop 2).headD 'x') then
      acc.reverse :: splitWsToWsGoC fuel []
        (rest.drop (2 + ((rest.drop 2).takeWhile isSpC).length))
    else splitWsToWsGoC fuel (c :: acc) rest

/-- Character-level split of a string at `\s+to\s+` separators; each step
consumes at least one character, so fuel equal to the length never runs
out. -/
def splitWsToWsC (s : Str) : List Str := splitWsToWsGoC s.length [] s

/-- Lines 171-174: the preprocessed input string — trim, strip trailing
`[.!?]+`, trim. -/
def inputStringOf (input : Str) : Str :=
  trimS (stripTrailRun isSentPunct (trimS input))

/-- Line 179: `inputString.toLowerCase().startsWith('from ')`. -/
def startsWithFromPre (input : Str) : Bool :=
  (strD "from ").isPrefixOf (lows (inputStringOf input))

/-- Lines 171-188: the locations extracted from a raw input string — strip a
leading `from `, split at `\s+to\s+`, trim, drop empties.  Identical code
sits in scripts-03.js lines 119-136. -/
def extractLocations (input : Str) : List Str :=
  let s0 := inputStringOf input
  let s1 := if startsWithFromPre input then trimS (s0.drop 5) else s0
  ((splitWsToWsC s1).map trimS).filter (fun l => !l.isEmpty)

/-- Lines 199-202: the pre-geocode route classification of
`getRouteCoordinates` — extracted-location count, `from `-prefix on the
punctuation-stripped trimmed string, `' to '` substring on the raw input.
Identical code sits in scripts-03.js lines 143-146. -/
def preClassify (input : Str) : Bool :=
  decide (1 < (extractLocations input).length) || startsWithFromPre input ||
    containsSub (lows input) (strD " to ")

/-- Lines 358-362: the post-geocode route classification — geocoded
coordinate count, `from `-prefix on the merely trimmed lower-cased input,
`' to '` substring.  Identical code sits in scripts-03.js lines 184-186. -/
def postClassify (input : Str) (count : Nat) : Bool :=
  decide (1 < count) || (strD "from ").isPrefixOf (trimS (lows input)) ||
    containsSub (lows input) (strD " to ")

/-- A standalone `to` surrounded by whitespace on both sides, scanned
case-insensitively. -/
def hasWsToWs : Str → Bool
  | a :: b :: c :: d :: rest =>
    (isSpC a && decide (lcC b = 't') && decide (lcC c = 'o') && isSpC d) ||
      hasWsToWs (b :: c :: d :: rest)
  | _ => false

/-- Modelled from the spec: the classification rule as claim C7 words it —
true exactly when the extracted-location count exceeds one, or the text
case-insensitively starts with `from `, or the text contains the standalone
word `to` surrounded by whitespace. -/
def claimClassifierRule (input : Str) (count : Nat) : Bool :=
  decide (1 < count) || (strD "from ").isPrefixOf (lows input) || hasWsToWs input

end Scripts04

theorem ne_nil_of_head_append (a b : Str) (h : a ≠ []) : a ++ b ≠ [] := by
  cases a with
  | nil => exact absurd rfl h
  | cons c cs => simp

theorem trimL_eq_self (s : Str) (h : ∀ c, s.head? = some c → isSpC c = false) :
    trimL s = s := by
  unfold trimL
  cases s with
  | nil => rfl
  | cons c rest =>
    have hc : isSpC c = false := h c rfl
    simp [List.dropWhile_cons, hc]

theorem trimR_eq_self (s : Str) (h : ∀ c, s.reverse.head? = some c → isSpC c = false) :
    trimR s = s := by
  unfold trimR
  cases hs : s.reverse with
  | nil =>
    have h0 : s = [] := by simpa using congrArg List.reverse hs
    simp [h0]
  | cons c rest =>
    have hc : isSpC c = false := h c (by rw [hs]; rfl)
    have hrw : s = (c :: rest).reverse := by rw [← hs, List.reverse_reverse]
    simp [hc, hrw]

theorem stripTrailRun_eq_self (p : Char → Bool) (s : Str)
    (h : ∀ c, s.reverse.head? = some c → p c = false) : stripTrailRun p s = s := by
  unfold stripTrailRun
  cases hs : s.reverse with
  | nil =>
    have h0 : s = [] := by simpa using congrArg List.reverse hs
    simp [h0]
  | cons c rest =>
    have hc : p c = false := h c (by rw [hs]; rfl)
    have hrw : s = (c :: rest).reverse := by rw [← hs, List.reverse_reverse]
    simp [hc, hrw]

theorem alpha_not_sp (c : Char) (h : isAlphaC c = true) : isSpC c = false := by
  cases hp : isSpC c
  · rfl
  · exfalso
    simp only [isSpC, Bool.or_eq_true, decide_eq_true_eq] at hp
    rcases hp with ((h1 | h1) | h1) | h1 <;> subst h1 <;> exact absurd h (by decide)

theorem joinSp_reverse_head_alpha (s : List Str) (hne : s ≠ [])
    (hw : ∀ w ∈ s, w ≠ [] ∧ w.all isAlphaC = true) :
    ∀ c, (joinSp s).reverse.head? = some c → isAlphaC c = true := by
  induction s with
  | nil => exact absurd rfl hne
  | cons w rest ih =>
    cases rest with
    | nil =>
      intro c hc
      have hww := hw w (List.mem_cons_self w [])
      exact all_reverse_head isAlphaC w c hww.2 (by simpa [joinSp] using hc)
    | cons x xs =>
      intro c hc
      have hrest : ∀ y ∈ x :: xs, y ≠ [] ∧ y.all isAlphaC = true :=
        fun y hy => hw y (List.mem_cons_of_mem w hy)
      have hne2 : joinSp (x :: xs) ≠ [] :=
        joinSp_ne_nil (x :: xs) (by simp) (fun y hy => (hrest y hy).1)
      have hrw : joinSp (w :: x :: xs) = w ++ ' ' :: joinSp (x :: xs) := rfl
      rw [hrw, List.reverse_append, List.reverse_cons, List.append_assoc] at hc
      cases hrev : (joinSp (x :: xs)).reverse with
      | nil => exact absurd (by simpa using congrArg List.reverse hrev) hne2
      | cons d ds =>
        rw [hrev, List.cons_append] at hc
        simp only [List.head?_cons, Option.some.injEq] at hc
        apply ih (by simp) hrest c
        rw [hrev]
        simp [hc]

theorem joinSp_head_alpha (s : List Str) (hne : s ≠ [])
    (hw : ∀ w ∈ s, w ≠ [] ∧ w.all isAlphaC = true) :
    ∀ c, (joinSp s).head? = some c → isAlphaC c = true := by
  intro c hc
  cases s with
  | nil => exact absurd rfl hne
  | cons w rest =>
    have hww := hw w (List.mem_cons_self w rest)
    cases hwcase : w with
    | nil => exact absurd hwcase hww.1
    | cons d ds =>
      have hd : isAlphaC d = true := by
        apply List.all_eq_true.mp hww.2 d
        rw [hwcase]
        exact List.mem_cons_self d ds
      cases rest with
      | nil =>
        rw [show joinSp [w] = w from rfl, hwcase] at hc
        simp only [List.head?_cons, Option.some.injEq] at hc
        rw [← hc]
        exact hd
      | cons x xs =>
        rw [show joinSp (w :: x :: xs) = w ++ ' ' :: joinSp (x :: xs) from rfl,
          hwcase] at hc
        simp only [List.cons_append, List.head?_cons, Option.some.injEq] at hc
        rw [← hc]
        exact hd

theorem trimS_joinSp_alpha (s : List Str) (hne : s ≠ [])
    (hw : ∀ w ∈ s, w ≠ [] ∧ w.all isAlphaC = true) : trimS (joinSp s) = joinSp s := by
  unfold trimS
  rw [trimR_eq_self (joinSp s)
    (fun c hc => alpha_not_sp c (joinSp_reverse_head_alpha s hne hw c hc))]
  exact trimL_eq_self (joinSp s)
    (fun c hc => alpha_not_sp c (joinSp_head_alpha s hne hw c hc))

theorem stripTrailOne_joinSp_alpha (s : List Str) (hne : s ≠ [])
    (hw : ∀ w ∈ s, w ≠ [] ∧ w.all isAlphaC = true) :
    stripTrailOne isPunct1 (joinSp s) = joinSp s := by
  apply stripTrailOne_eq_self
  intro c hc
  have halpha := joinSp_reverse_head_alpha s hne hw c hc
  exact alphaSp_not_punct1 c (by rw [halpha]; rfl)

namespace EnhancedNlp

theorem mkMultiResult_message (toks wps : List Str) :
    (mkMultiResult toks wps).message ≠ [] := by
  unfold mkMultiResult
  dsimp only
  repeat' apply ne_nil_of_head_append
  decide

theorem mkSimpleResult_message (toks : List Str) (f t : Str) :
    (mkSimpleResult toks f t).message ≠ [] := by
  unfold mkSimpleResult
  dsimp only
  repeat' apply ne_nil_of_head_append
  decide

theorem mkWalkingResult_message (f t : Str) :
    (mkWalkingResult f t).message ≠ [] := by
  unfold mkWalkingResult
  dsimp only
  repeat' apply ne_nil_of_head_append
  decide

theorem mkCatchMultiResult_message (toks wps : List Str) :
    (mkCatchMultiResult toks wps).message ≠ [] := by
  unfold mkCatchMultiResult
  dsimp only
  repeat' apply ne_nil_of_head_append
  decide

theorem paragraph_message (toks : List Str) :
    (extractLocationsFromParagraph toks).message ≠ [] := by
  unfold extractLocationsFromParagraph
  dsimp only
  repeat' apply ne_nil_of_head_append
  decide

theorem multiStage_eq (toks : List Str) (r : ExtractionResult)
    (h : multiStage toks = some r) : ∃ wps, r = mkMultiResult toks wps := by
  unfold multiStage at h
  dsimp only at h
  split at h
  · split at h
    · exact ⟨_, (Option.some.inj h).symm⟩
    · split at h
      · exact ⟨_, (Option.some.inj h).symm⟩
      · exact absurd h (by simp)
  · split at h
    · exact ⟨_, (Option.some.inj h).symm⟩
    · exact absurd h (by simp)

theorem catchStage_message (toks : List Str) : (catchStage toks).message ≠ [] := by
  unfold catchStage
  split
  · decide
  · split
    · exact paragraph_message toks
    · split
      · exact mkCatchMultiResult_message toks _
      · dsimp only
        split
        · decide
        · decide

end EnhancedNlp

namespace EnhancedNlp

/-- The invariant of claim C9: the suggested sequence lists exactly the
location names in order. -/
def seqMatches (r : ExtractionResult) : Prop :=
  r.suggestedSequence = r.locations.map (fun l => l.name)

theorem map_name_mk (ws : List Str) :
    (ws.map (fun w => ({ name := w, timeContext := [] } : Location))).map
      (fun l => l.name) = ws := by
  induction ws with
  | nil => rfl
  | cons w t ih => simp only [List.map_cons, ih]

theorem mkMultiResult_seq (toks wps : List Str) : seqMatches (mkMultiResult toks wps) := by
  unfold seqMatches mkMultiResult
  dsimp only
  rw [map_name_mk]

theorem mkSimpleResult_seq (toks : List Str) (f t : Str) :
    seqMatches (mkSimpleResult toks f t) := by
  unfold seqMatches mkSimpleResult
  rfl

theorem mkWalkingResult_seq (f t : Str) : seqMatches (mkWalkingResult f t) := by
  unfold seqMatches mkWalkingResult
  rfl

theorem mkCatchMultiResult_seq (toks wps : List Str) :
    seqMatches (mkCatchMultiResult toks wps) := by
  unfold seqMatches mkCatchMultiResult
  dsimp only
  rw [map_name_mk]

theorem gibbonResult_seq : seqMatches gibbonResult := by
  unfold seqMatches
  decide

theorem paragraph_seq (toks : List Str) :
    seqMatches (extractLocationsFromParagraph toks) := by
  unfold seqMatches extractLocationsFromParagraph
  dsimp only

theorem catchStage_seq (toks : List Str) : seqMatches (catchStage toks) := by
  unfold catchStage
  split
  · exact gibbonResult_seq
  · split
    · exact paragraph_seq toks
    · split
      · exact mkCatchMultiResult_seq toks _
      · unfold seqMatches
        dsimp only
        rw [map_name_mk]

end EnhancedNlp

/-- A Gemini payload whose `travelMode` is raw model text outside the
four-value enum (used against claim C3). -/
def c3raw : EnhancedNlp.GeminiResp :=
  { isRouteRequest := false
    locations := some [EnhancedNlp.LmLoc.strName (strD "Paris")]
    travelMode := some (strD "teleport")
    preferences := []
    message := strD "ok"
    suggestedSequence := [strD "Paris"] }

/-- The word list of the spec's worked example
`"avoid tolls and walking from Boston to Providence"` (claim C4). -/
def c4toks : List Str :=
  [strD "avoid", strD "tolls", strD "and", strD "walking", strD "from",
    strD "Boston", strD "to", strD "Providence"]

/-- A Gemini payload whose `suggestedSequence` disagrees with its
`locations` (used against claim C9). -/
def c9raw : EnhancedNlp.GeminiResp :=
  { isRouteRequest := false
    locations := some [EnhancedNlp.LmLoc.strName (strD "Paris")]
    travelMode := none
    preferences := []
    message := strD "ok"
    suggestedSequence := [strD "Rome", strD "Oslo"] }

/-- A pipeline result with two locations, used to exercise the route
dispatch of `handleProcessedResult` (claim C2's witness). -/
def c2res : EnhancedNlp.ExtractionResult :=
  { isRouteRequest := true
    locations := [{ name := strD "Boston", timeContext := [] },
      { name := strD "Providence", timeContext := [] }]
    travelMode := some (strD "driving")
    preferences := []
    message := strD "ok"
    suggestedSequence := [strD "Boston", strD "Providence"] }

/-- Claim C1: the pipeline entry points never reject.  The embedded functions
are total by construction; under any internal language-model failure the
enhanced entry point resolves to a result carrying a non-empty user-visible
`message`, and the secure entry point resolves to the regex fallback object
instead of propagating the error. -/
theorem c1_pipeline_never_rejects (toks : List Str) (e e1 e2 : Unit) :
    (EnhancedNlp.processNaturalLanguageInput toks (Except.error e)).message ≠ [] ∧
    Nlp.processNaturalLanguage toks (Except.error e1) (Except.error e2) =
      Nlp.extractLocationsWithRegex toks := by
  refine ⟨?_, rfl⟩
  unfold EnhancedNlp.processNaturalLanguageInput
  split
  · next r hr =>
    split at hr
    · rcases EnhancedNlp.multiStage_eq toks r hr with ⟨wps, rfl⟩
      exact EnhancedNlp.mkMultiResult_message toks wps
    · exact absurd hr (by simp)
  · split
    · next g hg => exact EnhancedNlp.mkSimpleResult_message toks g.1 g.2
    · split
      · next g hg => exact EnhancedNlp.mkWalkingResult_message g.1 g.2
      · split
        · decide
        · exact EnhancedNlp.catchStage_message toks

/-- Claim C2, counterexample: on the input `"journey"` with a failed
language-model call, the catch-block fallback classifies the text as a route
request (the keyword heuristic matches `journey`) while extracting no
location at all — a stage output with `isRouteRequest` true and fewer than
two locations. -/
theorem c2_counterexample :
    (EnhancedNlp.processNaturalLanguageInput [strD "journey"]
      (Except.error ())).isRouteRequest = true ∧
    (EnhancedNlp.processNaturalLanguageInput [strD "journey"]
      (Except.error ())).locations = [] := by decide

/-- Claim C2, amended: the pipeline itself can emit a route-classified result
with fewer than two locations; the reclassification happens in the caller —
`handleProcessedResult` dispatches to route creation only when the result is
route-classified AND carries at least two locations, and the waypoint list it
routes on always has at least two entries; everything else becomes the
non-route mention display. -/
theorem c2_route_reclassified (r : EnhancedNlp.ExtractionResult) (wps : List Str)
    (h : ScriptMain.handleAction r = ScriptMain.HandleAction.route wps) :
    r.isRouteRequest = true ∧ 2 ≤ r.locations.length ∧ 2 ≤ wps.length := by
  unfold ScriptMain.handleAction at h
  split at h
  · exact absurd h (by simp)
  · dsimp only at h
    split at h
    · next hguard =>
      rcases (Bool.and_eq_true _ _).mp hguard with ⟨hroute, hlen⟩
      have hlen2 : 2 ≤ r.locations.length := by
        have := of_decide_eq_true hlen
        simpa using this
      have hwps := (ScriptMain.HandleAction.route.inj h).symm
      refine ⟨hroute, hlen2, ?_⟩
      rw [hwps]
      split
      · next hseq => exact hseq
      · simpa using hlen2
    · exact absurd h (by simp)

/-- Claim C2, witness: the route dispatch at a concrete two-location
result. -/
theorem c2_route_reclassified_witness :
    ScriptMain.handleAction c2res =
      ScriptMain.HandleAction.route [strD "Boston", strD "Providence"] ∧
    (c2res.isRouteRequest = true ∧ 2 ≤ c2res.locations.length ∧
      2 ≤ ([strD "Boston", strD "Providence"] : List Str).length) :=
  ⟨by decide, c2_route_reclassified c2res [strD "Boston", strD "Providence"] (by decide)⟩

/-- Claim C3, counterexample: the enhanced module's language-model stage
passes `travelMode` through unclamped — a parsed response carrying the raw
text `teleport` reaches the caller unchanged, outside the four-value enum. -/
theorem c3_counterexample :
    (EnhancedNlp.processNaturalLanguageInput [strD "hello"]
      (Except.ok c3raw)).travelMode = some (strD "teleport") ∧
    (strD "teleport" ≠ strD "driving" ∧ strD "teleport" ≠ strD "walking" ∧
      strD "teleport" ≠ strD "cycling" ∧ strD "teleport" ≠ strD "transit") := by decide

/-- Claim C3, amended: the clamp holds in the secure module —
`validateAndFormatResponse` always returns a `transportMode` in the
four-value enum, defaulting unrecognized or missing values to driving; the
enhanced module's passthrough does not clamp (see the counterexample). -/
theorem c3_travel_mode_clamped (r : Nlp.GeminiResp) :
    (Nlp.validateAndFormatResponse r).preferences.transportMode = strD "driving" ∨
    (Nlp.validateAndFormatResponse r).preferences.transportMode = strD "walking" ∨
    (Nlp.validateAndFormatResponse r).preferences.transportMode = strD "cycling" ∨
    (Nlp.validateAndFormatResponse r).preferences.transportMode = strD "transit" := by
  unfold Nlp.validateAndFormatResponse
  dsimp only
  split
  · next h =>
    simp only [Bool.or_eq_true, decide_eq_true_eq] at h
    rcases h with ((h | h) | h) | h
    · exact Or.inl h
    · exact Or.inr (Or.inl h)
    · exact Or.inr (Or.inr (Or.inl h))
    · exact Or.inr (Or.inr (Or.inr h))
  · exact Or.inl rfl

/-- Claim C4: the actual behavior on the spec's worked example
`"avoid tolls and walking from Boston to Providence"`.  The enhanced module
extracts Boston and Providence with walking mode but an empty `preferences`
list (no avoid-tolls entry anywhere in the result), and the regex-only
variant reports `avoidTolls = false` — its `\btoll\b` pattern does not match
the plural `tolls` — and mangles the first location.  Both diverge from the
spec's expected `avoidTolls: true`. -/
theorem c4_expected_vs_actual :
    (EnhancedNlp.processNaturalLanguageInput c4toks (Except.error ())).locations =
      [{ name := strD "Boston", timeContext := [] },
        { name := strD "Providence", timeContext := [] }] ∧
    (EnhancedNlp.processNaturalLanguageInput c4toks (Except.error ())).travelMode =
      some (strD "walking") ∧
    (EnhancedNlp.processNaturalLanguageInput c4toks (Except.error ())).preferences = [] ∧
    (NlpRegex.extractLocationsWithRegex c4toks).preferences.avoidTolls = false ∧
    (NlpRegex.extractLocationsWithRegex c4toks).locations =
      [strD "avoid tolls and walking from Boston", strD "Providence"] := by decide

/-- Claim C9, counterexample: the language-model passthrough copies
`suggestedSequence` verbatim, so a response whose sequence disagrees with its
locations reaches the caller with mismatched lengths. -/
theorem c9_counterexample :
    (EnhancedNlp.processNaturalLanguageInput [strD "hello"]
      (Except.ok c9raw)).suggestedSequence.length = 2 ∧
    (EnhancedNlp.processNaturalLanguageInput [strD "hello"]
      (Except.ok c9raw)).locations.length = 1 := by decide

/-- Claim C9, amended: every locally-computed stage of the enhanced pipeline
(all branches reachable under a language-model failure) and the search
handler's adapter keep `suggestedSequence` equal to the location names in
order; only the language-model passthrough can break the invariant (see the
counterexample). -/
theorem c9_sequence_invariant (toks : List Str) (e : Unit) (r : LocResult) :
    EnhancedNlp.seqMatches
      (EnhancedNlp.processNaturalLanguageInput toks (Except.error e)) ∧
    EnhancedNlp.seqMatches (ScriptMain.adaptResult r) := by
  constructor
  · unfold EnhancedNlp.processNaturalLanguageInput
    split
    · next res hr =>
      split at hr
      · rcases EnhancedNlp.multiStage_eq toks res hr with ⟨wps, rfl⟩
        exact EnhancedNlp.mkMultiResult_seq toks wps
      · exact absurd hr (by simp)
    · split
      · next g hg => exact EnhancedNlp.mkSimpleResult_seq toks g.1 g.2
      · split
        · next g hg => exact EnhancedNlp.mkWalkingResult_seq g.1 g.2
        · split
          · exact EnhancedNlp.gibbonResult_seq
          · exact EnhancedNlp.catchStage_seq toks
  · unfold EnhancedNlp.seqMatches ScriptMain.adaptResult
    dsimp only
    rw [EnhancedNlp.map_name_mk]

namespace EnhancedNlp

/-- Lines 496-564: the accumulated location list of
`extractLocationsFromParagraph` before de-duplication. -/
def paraRawLocs (toks : List Str) : List Location :=
  (splitSentences toks).foldl
    (fun acc sent => paraCommonAdds sent (acc ++ paraSentenceLocs sent)) []

theorem dedupLoc_sublist (seen : List Str) (l : List Location) :
    (dedupLoc seen l).Sublist l := by
  induction l generalizing seen with
  | nil => simp [dedupLoc]
  | cons a ls ih =>
    unfold dedupLoc
    split
    · exact (ih seen).cons a
    · exact (ih (a.name :: seen)).cons₂ a

theorem dedupLoc_avoids (seen : List Str) (l : List Location) :
    ∀ x ∈ dedupLoc seen l, seen.contains x.name = false := by
  induction l generalizing seen with
  | nil => simp [dedupLoc]
  | cons a ls ih =>
    unfold dedupLoc
    split
    · exact ih seen
    · next hc =>
      intro x hx
      rcases List.mem_cons.mp hx with rfl | hx2
      · simpa using hc
      · have h2 := ih (a.name :: seen) x hx2
        simp only [List.contains_cons, Bool.or_eq_false_iff] at h2
        exact h2.2

theorem dedupLoc_names_nodup (seen : List Str) (l : List Location) :
    ((dedupLoc seen l).map (fun x => x.name)).Nodup := by
  induction l generalizing seen with
  | nil => simp [dedupLoc]
  | cons a ls ih =>
    unfold dedupLoc
    split
    · exact ih seen
    · simp only [List.map_cons, List.nodup_cons]
      refine ⟨?_, ih (a.name :: seen)⟩
      intro hmem
      rcases List.mem_map.mp hmem with ⟨x, hx, hname⟩
      have h2 := dedupLoc_avoids (a.name :: seen) ls x hx
      simp only [List.contains_cons, Bool.or_eq_false_iff] at h2
      rw [hname] at h2
      simpa using h2.1

theorem dedupLoc_complete (seen : List Str) (l : List Location) :
    ∀ x ∈ l, seen.contains x.name = true ∨
      ∃ y ∈ dedupLoc seen l, y.name = x.name := by
  induction l generalizing seen with
  | nil => simp
  | cons a ls ih =>
    intro x hx
    unfold dedupLoc
    split
    · next hc =>
      rcases List.mem_cons.mp hx with rfl | hx2
      · exact Or.inl hc
      · exact ih seen x hx2
    · next hc =>
      rcases List.mem_cons.mp hx with rfl | hx2
      · exact Or.inr ⟨x, List.mem_cons_self x _, rfl⟩
      · rcases ih (a.name :: seen) x hx2 with hin | ⟨y, hy, hyn⟩
        · simp only [List.contains_cons, Bool.or_eq_true] at hin
          rcases hin with heq | hin
          · refine Or.inr ⟨a, List.mem_cons_self a _, ?_⟩
            have : x.name = a.name := by simpa using heq
            exact this.symm
          · exact Or.inl hin
        · exact Or.inr ⟨y, List.mem_cons_of_mem a hy, hyn⟩

end EnhancedNlp

/-- Claim C10: the paragraph-prose fallback never classifies input as a route
request, de-duplicates its locations by exact name while preserving
first-seen order (the kept list is an order-preserving sublist of the raw
accumulation with pairwise-distinct names, and every accumulated name still
appears), and its suggested sequence is exactly the kept location names. -/
theorem c10_paragraph_invariants (toks : List Str) :
    (EnhancedNlp.extractLocationsFromParagraph toks).isRouteRequest = false ∧
    (EnhancedNlp.extractLocationsFromParagraph toks).locations =
      EnhancedNlp.dedupLoc [] (EnhancedNlp.paraRawLocs toks) ∧
    List.Sublist (EnhancedNlp.extractLocationsFromParagraph toks).locations
      (EnhancedNlp.paraRawLocs toks) ∧
    ((EnhancedNlp.extractLocationsFromParagraph toks).locations.map
      (fun l => l.name)).Nodup ∧
    (∀ x ∈ EnhancedNlp.paraRawLocs toks,
      ∃ y ∈ (EnhancedNlp.extractLocationsFromParagraph toks).locations,
        y.name = x.name) ∧
    (EnhancedNlp.extractLocationsFromParagraph toks).suggestedSequence =
      (EnhancedNlp.extractLocationsFromParagraph toks).locations.map
        (fun l => l.name) := by
  refine ⟨rfl, rfl, ?_, ?_, ?_, rfl⟩
  · exact EnhancedNlp.dedupLoc_sublist [] (EnhancedNlp.paraRawLocs toks)
  · exact EnhancedNlp.dedupLoc_names_nodup [] (EnhancedNlp.paraRawLocs toks)
  · intro x hx
    rcases EnhancedNlp.dedupLoc_complete [] (EnhancedNlp.paraRawLocs toks) x hx with
      hin | hfound
    · simp at hin
    · exact hfound

/-- Claim C8, counterexample: on the no-pattern input `"xyzzy"` both Pattern
Library entry points return a single-location result — the raw query itself —
rather than an empty result, so a rule's fallback contributes exactly one
item. -/
theorem c8_counterexample :
    (NlpRegex.extractLocationsWithRegex [strD "xyzzy"]).locations = [strD "xyzzy"] ∧
    (Nlp.extractLocationsWithRegex [strD "xyzzy"]).locations = [strD "xyzzy"] := by decide

theorem trySepSplit_ge_two (p : Str → Bool) (toks : List Str) (r : List Str)
    (h : NlpRegex.trySepSplit p toks = some r) : 2 ≤ r.length := by
  unfold NlpRegex.trySepSplit at h
  split at h
  · dsimp only at h
    split at h
    · next h2 => rw [← Option.some.inj h]; exact h2
    · exact absurd h (by simp)
  · exact absurd h (by simp)

theorem tryCommaSplit_ge_two (toks : List Str) (r : List Str)
    (h : NlpRegex.tryCommaSplit toks = some r) : 2 ≤ r.length := by
  unfold NlpRegex.tryCommaSplit at h
  split at h
  · dsimp only at h
    split at h
    · next h2 => rw [← Option.some.inj h]; exact h2
    · exact absurd h (by simp)
  · exact absurd h (by simp)

theorem sepLoopC_ge_two (toks : List Str) (r : List Str)
    (h : NlpRegex.sepLoopC toks = some r) : 2 ≤ r.length := by
  unfold NlpRegex.sepLoopC at h
  split at h
  · next heq => exact trySepSplit_ge_two _ toks r (heq.trans h)
  · split at h
    · next heq => exact trySepSplit_ge_two _ toks r (heq.trans h)
    · split at h
      · next heq => exact tryCommaSplit_ge_two toks r (heq.trans h)
      · split at h
        · next heq => exact trySepSplit_ge_two _ toks r (heq.trans h)
        · split at h
          · next heq => exact trySepSplit_ge_two _ toks r (heq.trans h)
          · split at h
            · split at h
              · rw [← Option.some.inj h]; simp
              · exact absurd h (by simp)
            · exact absurd h (by simp)

/-- Claim C8, amended: the separator rules of the regex-only variant are
indeed all-or-nothing — a successful separator rule always contributes at
least two items — but the entry point never returns an empty result on
non-empty input: when no pattern matches it falls back to a single-item list
holding the (cleaned) query text instead of an empty one. -/
theorem c8_no_partial_rules (toks : List Str) (hne : toks ≠ []) :
    (∀ r, NlpRegex.sepLoopC toks = some r → 2 ≤ r.length) ∧
    (NlpRegex.extractLocationsWithRegex toks).locations ≠ [] := by
  refine ⟨fun r hr => sepLoopC_ge_two toks r hr, ?_⟩
  unfold NlpRegex.extractLocationsWithRegex
  dsimp only
  split
  · next hemp => exact absurd (by simpa using hemp) hne
  · split
    · simp
    · split
      · next locs hlocs =>
        have h2 := sepLoopC_ge_two toks locs hlocs
        dsimp only
        exact fun hnil => by rw [hnil] at h2; simp at h2
      · split
        · simp
        · simp

/-- Claim C8, witness: the amended statement at the concrete input
`"xyzzy"`. -/
theorem c8_no_partial_rules_witness :
    ([strD "xyzzy"] : List Str) ≠ [] ∧
    ((∀ r, NlpRegex.sepLoopC [strD "xyzzy"] = some r → 2 ≤ r.length) ∧
      (NlpRegex.extractLocationsWithRegex [strD "xyzzy"]).locations ≠ []) :=
  ⟨by decide, c8_no_partial_rules [strD "xyzzy"] (by decide)⟩

/-- Claim C5, counterexample: on `"route Berlin to Paris"` — an input of the
form `X to Y` with `X = "route Berlin"` — the regex-only extractor strips the
leading `route` keyword from the first part and returns `Berlin`, not
`trim(X) = "route Berlin"`. -/
theorem c5_counterexample :
    (NlpRegex.extractLocationsWithRegex
      [strD "route", strD "Berlin", strD "to", strD "Paris"]).locations =
      [strD "Berlin", strD "Paris"] ∧
    strD "Berlin" ≠ trimS (strD "route Berlin") := by decide

theorem routeFromToMatch_none (toks : List Str)
    (h : ∀ t ∈ toks, (strD "route").isSuffixOf (lows t) = false) :
    Nlp.routeFromToMatch toks = none := by
  induction toks with
  | nil => rfl
  | cons t ts ih =>
    unfold Nlp.routeFromToMatch
    dsimp only
    have ht : (strD "route").isSuffixOf (lows t) = false := h t (List.mem_cons_self t ts)
    simp only [ht, Bool.false_eq_true, if_false]
    exact ih (fun x hx => h x (List.mem_cons_of_mem t hx))

theorem hasInteriorTok_mid (p : Str → Bool) (x t : Str) (xr ys : List Str)
    (hp : p t = true) (hys : ys ≠ []) :
    NlpRegex.hasInteriorTok p (x :: (xr ++ t :: ys)) = true := by
  unfold NlpRegex.hasInteriorTok
  dsimp only
  rw [List.dropLast_append_cons, List.dropLast_cons_of_ne_nil hys]
  refine List.any_eq_true.mpr ⟨t, ?_, hp⟩
  exact List.mem_append_right xr (List.mem_cons_self t _)

theorem stripLeadKw_eq_self (ws : List String) (toks : List Str)
    (h : ∀ w ∈ ws, isKw w (toks.headD []) = false) :
    EnhancedNlp.stripLeadKw ws toks = toks := by
  unfold EnhancedNlp.stripLeadKw
  split
  · next t u rest =>
    have hall : ws.any (fun w => isKw w t) = false :=
      List.any_eq_false.mpr (fun w hw => by simpa using h w hw)
    simp [hall]
  · rfl

/-- Side condition for the two-part split theorem: a plain location word —
non-empty, purely alphabetic, not ending in `route`, and not one of the
leading-strip keywords of the regex-only cleaner. -/
def plainLocWord (w : Str) : Bool :=
  !w.isEmpty && w.all isAlphaC &&
    !(strD "route").isSuffixOf (lows w) &&
    (["from", "to", "in", "at", "starting", "ending", "beginning", "route"].all
      (fun k => !isKw k w))

theorem plainLocWord_parts (w : Str) (h : plainLocWord w = true) :
    w ≠ [] ∧ w.all isAlphaC = true ∧
      (strD "route").isSuffixOf (lows w) = false ∧
      isKw "to" w = false ∧
      (∀ k ∈ (["from", "to", "in", "at", "starting", "ending", "beginning",
        "route"] : List String), isKw k w = false) := by
  unfold plainLocWord at h
  simp only [Bool.and_eq_true, Bool.not_eq_true', List.all_eq_true] at h
  obtain ⟨⟨⟨h1, h2⟩, h3⟩, h4⟩ := h
  refine ⟨?_, List.all_eq_true.mpr h2, h3, ?_, ?_⟩
  · intro hnil
    rw [hnil] at h1
    simp at h1
  · have := h4 "to" (by simp)
    simpa using this
  · intro k hk
    have := h4 k hk
    simpa using this

/-- Claim C5, amended: for an input `X to Y` whose two sides are made of
plain location words, the regex-only extractor yields exactly the two
locations `X` and `Y` in order (already trimmed under the normalized-text
model), and the adapter classifies the result as a route; when `X` opens
with a strippable keyword such as `route` the first name is cleaned instead
(see the counterexample). -/
theorem c5_two_part_split (xs ys : List Str) (hxne : xs ≠ []) (hyne : ys ≠ [])
    (hx : ∀ w ∈ xs, plainLocWord w = true) (hy : ∀ w ∈ ys, plainLocWord w = true) :
    (NlpRegex.extractLocationsWithRegex (xs ++ strD "to" :: ys)).locations =
      [joinSp xs, joinSp ys] ∧
    (ScriptMain.adaptResult
      (NlpRegex.extractLocationsWithRegex (xs ++ strD "to" :: ys))).isRouteRequest =
      true := by
  refine ⟨?_, rfl⟩
  obtain ⟨x, xr, rfl⟩ : ∃ x xr, xs = x :: xr := by
    cases xs with
    | nil => exact absurd rfl hxne
    | cons a b => exact ⟨a, b, rfl⟩
  obtain ⟨y, yr, rfl⟩ : ∃ y yr, ys = y :: yr := by
    cases ys with
    | nil => exact absurd rfl hyne
    | cons a b => exact ⟨a, b, rfl⟩
  have hsep : isKw "to" (strD "to") = true := by decide
  have hx2 : ∀ w ∈ x :: xr, isKw "to" w = false :=
    fun w hw => (plainLocWord_parts w (hx w hw)).2.2.2.1
  have hy2 : ∀ w ∈ y :: yr, isKw "to" w = false :=
    fun w hw => (plainLocWord_parts w (hy w hw)).2.2.2.1
  have hsplit := splitWsTo_pair (isKw "to") (x :: xr) (strD "to") (y :: yr)
    hx2 hy2 hsep (by simp) (by simp)
  have hroute : Nlp.routeFromToMatch ((x :: xr) ++ strD "to" :: (y :: yr)) = none := by
    apply routeFromToMatch_none
    intro t ht
    rcases List.mem_append.mp ht with h1 | h1
    · exact (plainLocWord_parts t (hx t h1)).2.2.1
    · rcases List.mem_cons.mp h1 with rfl | h2
      · decide
      · exact (plainLocWord_parts t (hy t h2)).2.2.1
  have hint : NlpRegex.hasInteriorTok (isKw "to")
      ((x :: xr) ++ strD "to" :: (y :: yr)) = true := by
    have := hasInteriorTok_mid (isKw "to") x (strD "to") xr (y :: yr) hsep (by simp)
    simpa using this
  have hcx : NlpRegex.cleanPartC (x :: xr) = x :: xr := by
    apply stripLeadKw_eq_self
    intro w hw
    exact (plainLocWord_parts x (hx x (List.mem_cons_self x xr))).2.2.2.2 w hw
  have hcy : NlpRegex.cleanPartC (y :: yr) = y :: yr := by
    apply stripLeadKw_eq_self
    intro w hw
    exact (plainLocWord_parts y (hy y (List.mem_cons_self y yr))).2.2.2.2 w hw
  have hjx : (joinSp (x :: xr)).isEmpty = false := by
    have := joinSp_ne_nil (x :: xr) (by simp)
      (fun w hw => (plainLocWord_parts w (hx w hw)).1)
    cases hj : joinSp (x :: xr) with
    | nil => exact absurd hj this
    | cons c cs => rfl
  have hjy : (joinSp (y :: yr)).isEmpty = false := by
    have := joinSp_ne_nil (y :: yr) (by simp)
      (fun w hw => (plainLocWord_parts w (hy w hw)).1)
    cases hj : joinSp (y :: yr) with
    | nil => exact absurd hj this
    | cons c cs => rfl
  have hparts : NlpRegex.trySepSplit (isKw "to")
      ((x :: xr) ++ strD "to" :: (y :: yr)) =
      some [joinSp (x :: xr), joinSp (y :: yr)] := by
    unfold NlpRegex.trySepSplit
    rw [hint]
    simp only [if_true]
    rw [hsplit]
    simp only [List.map_cons, List.map_nil, hcx, hcy, List.filter_cons,
      List.filter_nil, hjx, Bool.not_false, if_true, hjy]
    simp
  have hloop : NlpRegex.sepLoopC ((x :: xr) ++ strD "to" :: (y :: yr)) =
      some [joinSp (x :: xr), joinSp (y :: yr)] := by
    unfold NlpRegex.sepLoopC
    rw [hparts]
  unfold NlpRegex.extractLocationsWithRegex
  dsimp only
  rw [show ((x :: xr) ++ strD "to" :: (y :: yr)).isEmpty = false from rfl]
  simp only [Bool.false_eq_true, if_false]
  rw [hroute, hloop]

/-- Claim C5, witness: the amended split at the concrete input
`"Berlin to Paris"`. -/
theorem c5_two_part_split_witness :
    (([strD "Berlin"] : List Str) ≠ [] ∧ ([strD "Paris"] : List Str) ≠ [] ∧
      (∀ w ∈ ([strD "Berlin"] : List Str), plainLocWord w = true) ∧
      (∀ w ∈ ([strD "Paris"] : List Str), plainLocWord w = true)) ∧
    ((NlpRegex.extractLocationsWithRegex
        ([strD "Berlin"] ++ strD "to" :: [strD "Paris"])).locations =
        [joinSp [strD "Berlin"], joinSp [strD "Paris"]] ∧
      (ScriptMain.adaptResult
        (NlpRegex.extractLocationsWithRegex
          ([strD "Berlin"] ++ strD "to" :: [strD "Paris"]))).isRouteRequest = true) :=
  ⟨⟨by decide, by decide, by decide, by decide⟩,
    c5_two_part_split [strD "Berlin"] [strD "Paris"]
      (by decide) (by decide) (by decide) (by decide)⟩

/-- Claim C6, counterexample: `"from A to to B"` has two standalone `to`
words after `from` and three `to`-separated segments (`A`, the empty middle,
`B`), but the multi-waypoint extractor keeps only two waypoints — the empty
segment is dropped, so the waypoint count does not equal the segment
count. -/
theorem c6_counterexample :
    2 ≤ countWordTokens (strD "to")
      [strD "from", strD "A", strD "to", strD "to", strD "B"] ∧
    (splitTok (isKw "to") [strD "A", strD "to", strD "to", strD "B"]).length = 3 ∧
    (EnhancedNlp.processNaturalLanguageInput
      [strD "from", strD "A", strD "to", strD "to", strD "B"]
      (Except.error ())).locations.length = 2 := by decide

theorem countP_sepJoin (p : Str → Bool) (sep : Str) (segs : List (List Str))
    (hsep : p sep = true) (hsegs : ∀ s ∈ segs, ∀ w ∈ s, p w = false)
    (hne : segs ≠ []) : (sepJoin sep segs).countP p = segs.length - 1 := by
  induction segs with
  | nil => exact absurd rfl hne
  | cons s ss ih =>
    cases ss with
    | nil =>
      simp only [sepJoin]
      rw [List.countP_eq_zero.mpr (fun w hw => by
        simp [hsegs s (List.mem_cons_self s []) w hw])]
      simp
    | cons s2 ss2 =>
      have h1 : ∀ w ∈ s, p w = false := hsegs s (List.mem_cons_self s _)
      have h2 : ∀ x ∈ s2 :: ss2, ∀ w ∈ x, p w = false :=
        fun x hx => hsegs x (List.mem_cons_of_mem s hx)
      simp only [sepJoin]
      rw [List.countP_append, List.countP_cons]
      rw [List.countP_eq_zero.mpr (fun w hw => by simp [h1 w hw])]
      rw [ih h2 (by simp)]
      simp only [hsep, if_true, List.length_cons]
      omega

theorem buildWaypoints_clean (segs : List (List Str))
    (hw : ∀ s ∈ segs, s ≠ [] ∧ ∀ w ∈ s, w ≠ [] ∧ w.all isAlphaC = true) :
    EnhancedNlp.buildWaypoints segs = segs.map joinSp := by
  cases segs with
  | nil => rfl
  | cons s0 rest =>
    unfold EnhancedNlp.buildWaypoints
    dsimp only
    have hmap : rest.map (fun seg => trimS (stripTrailOne isPunct1 (joinSp seg))) =
        rest.map joinSp := by
      apply List.map_congr_left
      intro seg hseg
      have h1 := hw seg (List.mem_cons_of_mem s0 hseg)
      rw [stripTrailOne_joinSp_alpha seg h1.1 h1.2]
      exact trimS_joinSp_alpha seg h1.1 h1.2
    rw [hmap]
    rw [List.filter_eq_self.mpr ?_]
    · simp
    · intro w hw2
      rcases List.mem_map.mp hw2 with ⟨seg, hseg, rfl⟩
      have h1 := hw seg (List.mem_cons_of_mem s0 hseg)
      have := joinSp_ne_nil seg h1.1 (fun w hw3 => (h1.2 w hw3).1)
      cases hj : joinSp seg with
      | nil => exact absurd hj this
      | cons c cs => rfl

theorem mem_sepJoin (w sep : Str) (segs : List (List Str))
    (h : w ∈ sepJoin sep segs) : w = sep ∨ ∃ s ∈ segs, w ∈ s := by
  induction segs with
  | nil => simp [sepJoin] at h
  | cons s ss ih =>
    cases ss with
    | nil =>
      simp only [sepJoin] at h
      exact Or.inr ⟨s, List.mem_cons_self s [], h⟩
    | cons s2 ss2 =>
      simp only [sepJoin] at h
      rcases List.mem_append.mp h with h1 | h1
      · exact Or.inr ⟨s, List.mem_cons_self s _, h1⟩
      · rcases List.mem_cons.mp h1 with rfl | h2
        · exact Or.inl rfl
        · rcases ih h2 with h3 | ⟨t, ht, hmem⟩
          · exact Or.inl h3
          · exact Or.inr ⟨t, List.mem_cons_of_mem s ht, hmem⟩

/-- Claim C6, amended: for a text `from S1 to S2 to ... to Sn` with three or
more non-empty purely-alphabetic segments (two or more standalone `to`
words), the multi-waypoint stage keeps every segment: the waypoint list is
exactly the segments in order and the location count equals the segment
count.  With an empty segment between two `to`s the count drops instead (see
the counterexample). -/
theorem c6_multi_waypoints (fromTok : Str) (segs : List (List Str))
    (llm : Except Unit EnhancedNlp.GeminiResp)
    (hfrom : lows fromTok = strD "from")
    (h3 : 3 ≤ segs.length)
    (hw : ∀ s ∈ segs, s ≠ [] ∧ ∀ w ∈ s, w ≠ [] ∧ w.all isAlphaC = true ∧
      lows w ≠ strD "to" ∧ lows w ≠ strD "from") :
    (EnhancedNlp.processNaturalLanguageInput
      (fromTok :: sepJoin (strD "to") segs) llm).suggestedSequence =
      segs.map joinSp ∧
    (EnhancedNlp.processNaturalLanguageInput
      (fromTok :: sepJoin (strD "to") segs) llm).locations.length =
      segs.length := by
  have hsegne : segs ≠ [] := by intro h; rw [h] at h3; simp at h3
  have hbody : sepJoin (strD "to") segs ≠ [] := by
    obtain ⟨s1, rest1, rfl⟩ : ∃ a l, segs = a :: l := by
      cases segs with
      | nil => simp at h3
      | cons a l => exact ⟨a, l, rfl⟩
    obtain ⟨s2, rest2, rfl⟩ : ∃ a l, rest1 = a :: l := by
      cases rest1 with
      | nil => simp at h3
      | cons a l => exact ⟨a, l, rfl⟩
    simp only [sepJoin]
    intro hnil
    cases s1 <;> simp at hnil
  have hto : isKw "to" (strD "to") = true := by decide
  have hsegTo : ∀ s ∈ segs, ∀ w ∈ s, isKw "to" w = false := by
    intro s hs w hww
    exact decide_eq_false ((hw s hs).2 w hww).2.2.1
  have hsegFrom : ∀ s ∈ segs, ∀ w ∈ s, isKw "from" w = false := by
    intro s hs w hww
    exact decide_eq_false ((hw s hs).2 w hww).2.2.2
  have hcount : 2 ≤ countWordTokens (strD "to") (fromTok :: sepJoin (strD "to") segs) := by
    have hcp : (fromTok :: sepJoin (strD "to") segs).countP
        (fun t => decide (lows t = strD "to")) = segs.length - 1 := by
      rw [List.countP_cons]
      rw [countP_sepJoin (fun t => decide (lows t = strD "to")) (strD "to") segs
        (by decide) (fun s hs w hww => decide_eq_false ((hw s hs).2 w hww).2.2.1) hsegne]
      have h0 : (decide (lows fromTok = strD "to") : Bool) = false := by
        rw [hfrom]; decide
      simp [h0]
    have hle := le_countWordTokens_to (fromTok :: sepJoin (strD "to") segs)
    rw [hcp] at hle
    omega
  have hincl : includesSubLow "from" (fromTok :: sepJoin (strD "to") segs) = true := by
    refine List.any_eq_true.mpr ⟨fromTok, List.mem_cons_self fromTok _, ?_⟩
    rw [hfrom]; decide
  have hcond : EnhancedNlp.multiCond (fromTok :: sepJoin (strD "to") segs) = true := by
    unfold EnhancedNlp.multiCond EnhancedNlp.hasMultipleToKeywords
    rw [hincl]
    simp [hcount]
  have hsplitFrom : splitTok (isKw "from") (fromTok :: sepJoin (strD "to") segs) =
      [] :: [sepJoin (strD "to") segs] := by
    have h1 := splitTok_append_sep (isKw "from") [] fromTok (sepJoin (strD "to") segs)
      (by simp) (by unfold isKw; rw [hfrom]; decide)
    simp only [List.nil_append] at h1
    rw [h1]
    rw [splitTok_of_no_sep (isKw "from") (sepJoin (strD "to") segs) ?_]
    intro w hww
    rcases mem_sepJoin w (strD "to") segs hww with rfl | ⟨s, hs, hmem⟩
    · decide
    · exact hsegFrom s hs w hmem
  have hkwf : EnhancedNlp.kwFollowed "from" (fromTok :: sepJoin (strD "to") segs) = true := by
    unfold EnhancedNlp.kwFollowed
    have h1 : isKw "from" fromTok = true := by unfold isKw; rw [hfrom]; decide
    rw [h1]
    simp only [if_true]
    cases hb : sepJoin (strD "to") segs with
    | nil => exact absurd hb hbody
    | cons c cs => rfl
  have hsplitTo : splitTok (isKw "to") (sepJoin (strD "to") segs) = segs :=
    splitTok_sepJoin (isKw "to") (strD "to") segs hto hsegTo hsegne
  have hbuild : EnhancedNlp.buildWaypoints segs = segs.map joinSp :=
    buildWaypoints_clean segs (fun s hs =>
      ⟨(hw s hs).1, fun w hww => ⟨((hw s hs).2 w hww).1, ((hw s hs).2 w hww).2.1⟩⟩)
  have hvia : EnhancedNlp.fromSubWaypoints (fromTok :: sepJoin (strD "to") segs) =
      some (segs.map joinSp) := by
    unfold EnhancedNlp.fromSubWaypoints
    rw [hsplitFrom]
    dsimp only
    rw [hkwf]
    simp only [if_true]
    rw [hsplitTo, hbuild]
  have hlen2 : 2 ≤ (segs.map joinSp).length := by
    rw [List.length_map]
    omega
  have hmulti : EnhancedNlp.multiStage (fromTok :: sepJoin (strD "to") segs) =
      some (EnhancedNlp.mkMultiResult (fromTok :: sepJoin (strD "to") segs)
        (segs.map joinSp)) := by
    unfold EnhancedNlp.multiStage
    dsimp only
    rw [hincl]
    simp only [if_true]
    rw [hvia]
    dsimp only
    rw [if_pos hlen2]
  unfold EnhancedNlp.processNaturalLanguageInput
  rw [hcond]
  simp only [if_true]
  rw [hmulti]
  dsimp only
  constructor
  · rfl
  · unfold EnhancedNlp.mkMultiResult
    dsimp only
    rw [List.length_map, List.length_map]

/-- Claim C6, witness: the amended statement at the spec's example
`"From New York to Los Angeles to Chicago"`. -/
theorem c6_multi_waypoints_witness :
    (lows (strD "From") = strD "from" ∧
      3 ≤ ([[strD "New", strD "York"], [strD "Los", strD "Angeles"],
        [strD "Chicago"]] : List (List Str)).length ∧
      (∀ s ∈ ([[strD "New", strD "York"], [strD "Los", strD "Angeles"],
          [strD "Chicago"]] : List (List Str)),
        s ≠ [] ∧ ∀ w ∈ s, w ≠ [] ∧ w.all isAlphaC = true ∧
          lows w ≠ strD "to" ∧ lows w ≠ strD "from")) ∧
    ((EnhancedNlp.processNaturalLanguageInput
        (strD "From" :: sepJoin (strD "to")
          [[strD "New", strD "York"], [strD "Los", strD "Angeles"],
            [strD "Chicago"]]) (Except.error ())).suggestedSequence =
      [[strD "New", strD "York"], [strD "Los", strD "Angeles"],
        [strD "Chicago"]].map joinSp ∧
      (EnhancedNlp.processNaturalLanguageInput
        (strD "From" :: sepJoin (strD "to")
          [[strD "New", strD "York"], [strD "Los", strD "Angeles"],
            [strD "Chicago"]]) (Except.error ())).locations.length =
      ([[strD "New", strD "York"], [strD "Los", strD "Angeles"],
        [strD "Chicago"]] : List (List Str)).length) :=
  ⟨⟨by decide, by decide, by decide⟩,
    c6_multi_waypoints (strD "From")
      [[strD "New", strD "York"], [strD "Los", strD "Angeles"], [strD "Chicago"]]
      (Except.error ()) (by decide) (by decide) (by decide)⟩

/-- Claim C7, counterexample: on `"\tto\tB"` the claimed rule fires (a
standalone `to` surrounded by tab whitespace) but the code's pre-geocode
check does not — its substring test looks for the literal `' to '` with
spaces; and on `"from .."` the pre-geocode check (which strips trailing
punctuation before the `from `-prefix test) disagrees with the post-geocode
check (which only trims), so the same rule is not applied at both points. -/
theorem c7_counterexample :
    Scripts04.preClassify (strD "\tto\tB") = false ∧
    Scripts04.claimClassifierRule (strD "\tto\tB")
      (Scripts04.extractLocations (strD "\tto\tB")).length = true ∧
    Scripts04.preClassify (strD "from ..") = false ∧
    Scripts04.postClassify (strD "from ..")
      (Scripts04.extractLocations (strD "from ..")).length = true := by decide

theorem spc_char (a : Char) (ha : isSpC a = true → a = ' ') :
    isSpC a = (' ' == a) := by
  by_cases h : a = ' '
  · subst h; decide
  · have h1 : isSpC a = false := by
      cases hs : isSpC a
      · rfl
      · exact absurd (ha hs) h
    rw [h1]
    exact (beq_eq_false_iff_ne.mpr (fun he => h he.symm)).symm

theorem lc_char (b t : Char) (hb : lcC b = b) : decide (lcC b = t) = (t == b) := by
  rw [hb]
  by_cases h : b = t
  · subst h; simp
  · rw [decide_eq_false h]
    exact (beq_eq_false_iff_ne.mpr (fun he => h he.symm)).symm

theorem hasWsToWs_eq_containsSub (s : Str)
    (h : ∀ c ∈ s, (isSpC c = true → c = ' ') ∧ lcC c = c) :
    Scripts04.hasWsToWs s = containsSub s (strD " to ") := by
  induction s with
  | nil => decide
  | cons a rest ih =>
    have hrest : ∀ c ∈ rest, (isSpC c = true → c = ' ') ∧ lcC c = c :=
      fun c hc => h c (List.mem_cons_of_mem a hc)
    cases rest with
    | nil =>
      show (false : Bool) = containsSub [a] (strD " to ")
      rw [show strD " to " = [' ', 't', 'o', ' '] from rfl]
      simp [containsSub, List.isPrefixOf]
    | cons b rest2 =>
      cases rest2 with
      | nil =>
        show (false : Bool) = containsSub [a, b] (strD " to ")
        rw [show strD " to " = [' ', 't', 'o', ' '] from rfl]
        simp [containsSub, List.isPrefixOf]
      | cons c3 rest3 =>
        cases rest3 with
        | nil =>
          show (false : Bool) = containsSub [a, b, c3] (strD " to ")
          rw [show strD " to " = [' ', 't', 'o', ' '] from rfl]
          simp [containsSub, List.isPrefixOf]
        | cons d rest4 =>
          show ((isSpC a && decide (lcC b = 't') && decide (lcC c3 = 'o') && isSpC d)
              || Scripts04.hasWsToWs (b :: c3 :: d :: rest4)) =
            ((strD " to ").isPrefixOf (a :: b :: c3 :: d :: rest4) ||
              containsSub (b :: c3 :: d :: rest4) (strD " to "))
          rw [ih hrest]
          congr 1
          have ha := (h a (List.mem_cons_self a _)).1
          have hb := (h b (by simp)).2
          have hc3 := (h c3 (by simp)).2
          have hd := (h d (by simp)).1
          apply Bool.eq_iff_iff.mpr
          constructor
          · intro hw
            simp only [Bool.and_eq_true, decide_eq_true_eq] at hw
            obtain ⟨⟨⟨h1, h2⟩, h3⟩, h4⟩ := hw
            have ha2 : a = ' ' := ha h1
            have hd2 : d = ' ' := hd h4
            rw [hb] at h2
            rw [hc3] at h3
            subst ha2; subst hd2; subst h2; subst h3
            rw [show strD " to " = [' ', 't', 'o', ' '] from rfl]
            simp [List.isPrefixOf]
          · intro hp
            rw [show strD " to " = [' ', 't', 'o', ' '] from rfl] at hp
            simp only [List.isPrefixOf, Bool.and_eq_true, beq_iff_eq] at hp
            obtain ⟨h1, h2, h3, h4⟩ := hp
            rw [← h1, ← h2, ← h3, ← h4.1]
            decide

/-- Claim C7, amended: for input text already in the classifier's normal form
— lower-case, trimmed, no trailing sentence punctuation, and with ordinary
spaces as its only whitespace — the pre-geocode check equals the claimed
rule on the extracted-location count, and the post-geocode check applied to
that same count agrees with the pre-geocode check.  Outside this normal form
the three checks can disagree (see the counterexample). -/
theorem c7_classifier_rule (input : Str)
    (hlow : lows input = input)
    (htrim : trimS input = input)
    (hpunct : stripTrailRun isSentPunct input = input)
    (hplain : ∀ c ∈ input, (isSpC c = true → c = ' ') ∧ lcC c = c) :
    Scripts04.preClassify input =
      Scripts04.claimClassifierRule input
        (Scripts04.extractLocations input).length ∧
    Scripts04.postClassify input (Scripts04.extractLocations input).length =
      Scripts04.preClassify input := by
  have hinp : Scripts04.inputStringOf input = input := by
    unfold Scripts04.inputStringOf
    rw [htrim, hpunct, htrim]
  have heq : Scripts04.hasWsToWs input = containsSub input (strD " to ") :=
    hasWsToWs_eq_containsSub input hplain
  constructor
  · unfold Scripts04.preClassify Scripts04.claimClassifierRule
      Scripts04.startsWithFromPre
    rw [hinp, heq, hlow]
  · unfold Scripts04.postClassify Scripts04.preClassify
      Scripts04.startsWithFromPre
    rw [hinp, hlow, htrim]

/-- Claim C7, witness: the amended agreement at the concrete normalized
input `"from berlin to paris"`. -/
theorem c7_classifier_rule_witness :
    (lows (strD "from berlin to paris") = strD "from berlin to paris" ∧
      trimS (strD "from berlin to paris") = strD "from berlin to paris" ∧
      stripTrailRun isSentPunct (strD "from berlin to paris") =
        strD "from berlin to paris" ∧
      (∀ c ∈ strD "from berlin to paris",
        (isSpC c = true → c = ' ') ∧ lcC c = c)) ∧
    (Scripts04.preClassify (strD "from berlin to paris") =
        Scripts04.claimClassifierRule (strD "from berlin to paris")
          (Scripts04.extractLocations (strD "from berlin to paris")).length ∧
      Scripts04.postClassify (strD "from berlin to paris")
          (Scripts04.extractLocations (strD "from berlin to paris")).length =
        Scripts04.preClassify (strD "from berlin to paris")) :=
  ⟨⟨by decide, by decide, by decide, by decide⟩,
    c7_classifier_rule (strD "from berlin to paris")
      (by decide) (by decide) (by decide) (by decide)⟩
